import Mathlib

/-!
A verification development for `python_bot/analyzer.py` and the parts of
`python_bot/competitions.py` it uses.

Modelling conventions (shallow embedding):
* Python values are modelled by the inductive `PyVal`; Python `float`s are
  modelled as exact rationals (`ℚ`).  Python's `round` is round-half-to-even
  (`pyRound` below).
* Python exceptions that the analyzer does not catch are modelled by the
  `Except Unit` monad (`PyM`); a `.error ()` result corresponds to the call
  raising.
* Unicode NFD normalization with combining-mark stripping is modelled exactly
  for ASCII text and for the precomposed Latin-1 letters (U+00C0..U+00FF) plus
  bare combining marks (U+0300..U+036F); other characters are kept unchanged.
  `str.lower` is modelled for ASCII letters, `\d` and `\s` for their ASCII
  ranges, mirroring the data the bot actually handles.
* `float(...)`/`int(...)` string parsing is modelled for the usual
  sign/digits/point/exponent forms (no `inf`/`nan`/underscore forms).
* `repr` of a Python string is modelled as the string wrapped in single
  quotes (no escape processing); `repr` of a float whose value has no finite
  decimal expansion falls back to a `num/den` rendering.  These only affect
  human-readable note strings, never any probability or ranking.
-/

namespace PyBot

/-- Model of a Python value as handled by the analyzer. -/
inductive PyVal where
  | none
  | bool (b : Bool)
  | int (n : ℤ)
  | float (q : ℚ)
  | str (s : String)
  | list (xs : List PyVal)
  | dict (entries : List (String × PyVal))

/-- Exceptions escaping the analyzer (uncaught `TypeError`/`ValueError`/
`AttributeError`) are modelled by this monad. -/
abbrev PyM := Except Unit

deriving instance DecidableEq for Except

def pyRaise {α : Type} : PyM α := .error ()

/-- Association-list lookup, modelling `dict.__getitem__` presence. -/
def dfind : List (String × PyVal) → String → Option PyVal
  | [], _ => Option.none
  | (k, v) :: rest, key => if k = key then some v else dfind rest key

/-- `d.get(key, default)` on a known dict. -/
def dgetD (d : List (String × PyVal)) (key : String) (dflt : PyVal) : PyVal :=
  (dfind d key).getD dflt

/-- `v.get(key, default)` where `v` is an arbitrary object: raises
`AttributeError` when `v` is not a dict. -/
def pyGetD (v : PyVal) (key : String) (dflt : PyVal) : PyM PyVal :=
  match v with
  | .dict d => pure (dgetD d key dflt)
  | _ => pyRaise

/-- Python truthiness. -/
def truthy : PyVal → Bool
  | .none => false
  | .bool b => b
  | .int n => n != 0
  | .float q => q != 0
  | .str s => s != ""
  | .list xs => !xs.isEmpty
  | .dict d => !d.isEmpty

/-- `x or y` for Python values. -/
def pyOr (x y : PyVal) : PyVal := if truthy x then x else y

def isDict : PyVal → Bool
  | .dict _ => true
  | _ => false

/-- `v is None`. -/
def isPyNone : PyVal → Bool
  | .none => true
  | _ => false

/-- `v == s` against a string literal: only a `str` can compare equal. -/
def pyEqStr (v : PyVal) (s : String) : Bool :=
  match v with
  | .str t => t = s
  | _ => false

/-! ### Numeric helpers -/

/-- Python 3 `round` on a real value: round half to even. -/
def pyRound (q : ℚ) : ℤ :=
  if q - (⌊q⌋ : ℚ) < 1/2 then ⌊q⌋
  else if (1 : ℚ)/2 < q - (⌊q⌋ : ℚ) then ⌊q⌋ + 1
  else if ⌊q⌋ % 2 = 0 then ⌊q⌋ else ⌊q⌋ + 1

/-! ### ASCII string helpers mirroring `str` methods and the regexes used -/

/-- The ASCII whitespace class matched by Python's `\s` and stripped by
`str.strip()`. -/
def pyIsSpace (c : Char) : Bool :=
  c = ' ' || c = '\t' || c = '\n' || c = '\r' || c = '\x0b' || c = '\x0c'

def stripChars (cs : List Char) : List Char :=
  ((cs.dropWhile pyIsSpace).reverse.dropWhile pyIsSpace).reverse

/-- `str.strip()`. -/
def pyStrip (s : String) : String := String.mk (stripChars s.toList)

/-- `str.lower()` (ASCII model). -/
def pyLower (s : String) : String := String.mk (s.toList.map Char.toLower)

/-- `str.replace(a, b)` for single characters. -/
def replaceChar (a b : Char) (s : String) : String :=
  String.mk (s.toList.map fun c => if c = a then b else c)

/-- `re.sub(r"\s+", " ", s)`: collapse whitespace runs to single spaces.
The boolean flag records whether we are inside a whitespace run. -/
def collapseWSAux : Bool → List Char → List Char
  | _, [] => []
  | inRun, c :: rest =>
    if pyIsSpace c then
      if inRun then collapseWSAux true rest else ' ' :: collapseWSAux true rest
    else c :: collapseWSAux false rest

def collapseWS (cs : List Char) : List Char := collapseWSAux false cs

/-- Does `hay` start with `needle`? -/
def startsWithChars : List Char → List Char → Bool
  | _, [] => true
  | [], _ :: _ => false
  | c :: cs, d :: ds => c == d && startsWithChars cs ds

/-- Substring test (`needle in hay` on Python strings). -/
def hasSub : List Char → List Char → Bool
  | [], n => startsWithChars [] n
  | c :: cs, n => startsWithChars (c :: cs) n || hasSub cs n

def strContains (hay needle : String) : Bool := hasSub hay.toList needle.toList

/-- `str.split(sep)` for a single-character separator. -/
def splitOnChar (sep : Char) (cs : List Char) : List (List Char) :=
  match cs with
  | [] => [[]]
  | c :: rest =>
    let tail := splitOnChar sep rest
    if c = sep then [] :: tail
    else match tail with
      | [] => [[c]]
      | t :: ts => (c :: t) :: ts

/-! ### NFD + combining-mark stripping (`_normalize_label`'s first steps)

Exact for ASCII; precomposed Latin-1 letters decompose to their base letter
(the combining mark is then removed, category `Mn`); bare combining marks are
removed; everything else is kept. -/

def stripAccentChar (c : Char) : List Char :=
  if 0x300 ≤ c.toNat ∧ c.toNat ≤ 0x36F then []
  else if c ∈ ['À', 'Á', 'Â', 'Ã', 'Ä', 'Å'] then ['A']
  else if c = 'Ç' then ['C']
  else if c ∈ ['È', 'É', 'Ê', 'Ë'] then ['E']
  else if c ∈ ['Ì', 'Í', 'Î', 'Ï'] then ['I']
  else if c = 'Ñ' then ['N']
  else if c ∈ ['Ò', 'Ó', 'Ô', 'Õ', 'Ö'] then ['O']
  else if c ∈ ['Ù', 'Ú', 'Û', 'Ü'] then ['U']
  else if c = 'Ý' then ['Y']
  else if c ∈ ['à', 'á', 'â', 'ã', 'ä', 'å'] then ['a']
  else if c = 'ç' then ['c']
  else if c ∈ ['è', 'é', 'ê', 'ë'] then ['e']
  else if c ∈ ['ì', 'í', 'î', 'ï'] then ['i']
  else if c = 'ñ' then ['n']
  else if c ∈ ['ò', 'ó', 'ô', 'õ', 'ö'] then ['o']
  else if c ∈ ['ù', 'ú', 'û', 'ü'] then ['u']
  else if c ∈ ['ý', 'ÿ'] then ['y']
  else [c]

def stripAccents (s : String) : String :=
  String.mk (s.toList.flatMap stripAccentChar)

/-! ### `str()` / `repr()` -/

/-- Decimal digits of a natural number. -/
def natDigits (n : ℕ) : String := toString n

/-- Best-effort rendering of a float (exact when the value has a finite
decimal expansion of at most 30 digits, as every IEEE double read from a
short decimal literal does). -/
def floatRepr (q : ℚ) : String :=
  let sign := if q < 0 then "-" else ""
  let a : ℚ := |q|
  match (List.range 31).find? (fun k => ((a * (10 : ℚ) ^ k).den = 1)) with
  | some k =>
    if k = 0 then sign ++ natDigits (a.num.toNat) ++ ".0"
    else
      let digits := natDigits ((a * (10 : ℚ) ^ k).num.toNat)
      let padded := if digits.length ≤ k then
        String.mk (List.replicate (k + 1 - digits.length) '0') ++ digits else digits
      let cs := padded.toList
      sign ++ String.mk (cs.take (cs.length - k)) ++ "." ++
        String.mk (cs.drop (cs.length - k))
  | Option.none => sign ++ toString a.num ++ "/" ++ toString a.den

mutual

/-- Python `repr`. -/
def pyRepr : PyVal → String
  | .none => "None"
  | .bool b => if b then "True" else "False"
  | .int n => toString n
  | .float q => floatRepr q
  | .str s => "'" ++ s ++ "'"
  | .list xs => "[" ++ commaSep (pyReprList xs) ++ "]"
  | .dict d => "\x7b" ++ commaSep (pyReprDict d) ++ "\x7d"

def pyReprList : List PyVal → List String
  | [] => []
  | v :: vs => pyRepr v :: pyReprList vs

def pyReprDict : List (String × PyVal) → List String
  | [] => []
  | (k, v) :: d => ("'" ++ k ++ "': " ++ pyRepr v) :: pyReprDict d

def commaSep : List String → String
  | [] => ""
  | [s] => s
  | s :: rest => s ++ ", " ++ commaSep rest

end

/-- Python `str()`. -/
def pyStr (v : PyVal) : String :=
  match v with
  | .str s => s
  | _ => pyRepr v

/-! ### `float(...)` and `int(...)` builtins -/

def digitVal (c : Char) : ℕ := c.toNat - '0'.toNat

def digitsToNat (cs : List Char) : ℕ :=
  cs.foldl (fun acc c => acc * 10 + digitVal c) 0

/-- Parse the exponent suffix `[eE][+-]?digits` followed by end of input. -/
def parseExp (cs : List Char) : Option ℤ :=
  match cs with
  | [] => some 0
  | e :: rest =>
    if e = 'e' ∨ e = 'E' then
      let (sgn, rest') : ℤ × List Char :=
        match rest with
        | '+' :: r => (1, r)
        | '-' :: r => (-1, r)
        | r => (1, r)
      let ds := rest'.takeWhile Char.isDigit
      let tail := rest'.dropWhile Char.isDigit
      if ds.isEmpty ∨ ¬ tail.isEmpty then Option.none
      else some (sgn * (digitsToNat ds : ℤ))
    else Option.none

/-- The numeric core accepted by `float`: `digits[.digits*]` or `.digits+`,
with an optional exponent. -/
def parseUnsignedFloat (cs : List Char) : Option ℚ :=
  let intDs := cs.takeWhile Char.isDigit
  let rest := cs.dropWhile Char.isDigit
  match rest with
  | '.' :: r2 =>
    let fracDs := r2.takeWhile Char.isDigit
    let rest2 := r2.dropWhile Char.isDigit
    if intDs.isEmpty ∧ fracDs.isEmpty then Option.none
    else
      (parseExp rest2).map fun e =>
        ((digitsToNat intDs : ℚ) + (digitsToNat fracDs : ℚ) / (10 : ℚ) ^ fracDs.length)
          * (10 : ℚ) ^ e
  | _ =>
    if intDs.isEmpty then Option.none
    else (parseExp rest).map fun e => (digitsToNat intDs : ℚ) * (10 : ℚ) ^ e

/-- `float(s)` for a string: strip, optional sign, numeric core. -/
def pyFloatOfStr (s : String) : Option ℚ :=
  let cs := stripChars s.toList
  match cs with
  | '+' :: rest => parseUnsignedFloat rest
  | '-' :: rest => (parseUnsignedFloat rest).map Neg.neg
  | rest => parseUnsignedFloat rest

/-- `float(v)`; `Option.none` models a raised `TypeError`/`ValueError`. -/
def pyFloatOpt : PyVal → Option ℚ
  | .bool b => some (if b then 1 else 0)
  | .int n => some (n : ℚ)
  | .float q => some q
  | .str s => pyFloatOfStr s
  | _ => Option.none

/-- `float(v)` where the exception propagates. -/
def pyFloatE (v : PyVal) : PyM ℚ :=
  match pyFloatOpt v with
  | some q => pure q
  | Option.none => pyRaise

/-- `int(s)` for a string: strip, optional sign, digits only. -/
def pyIntOfStr (s : String) : Option ℤ :=
  let cs := stripChars s.toList
  let core : List Char → Option ℤ := fun ds =>
    if ds.isEmpty ∨ ¬ (ds.all Char.isDigit) then Option.none
    else some (digitsToNat ds : ℤ)
  match cs with
  | '+' :: rest => core rest
  | '-' :: rest => (core rest).map Neg.neg
  | rest => core rest

/-- Truncation toward zero, as `int(float)` does. -/
def truncQ (q : ℚ) : ℤ := if 0 ≤ q then ⌊q⌋ else -⌊-q⌋

def pyIntOpt : PyVal → Option ℤ
  | .bool b => some (if b then 1 else 0)
  | .int n => some n
  | .float q => some (truncQ q)
  | .str s => pyIntOfStr s
  | _ => Option.none

def pyIntE (v : PyVal) : PyM ℤ :=
  match pyIntOpt v with
  | some n => pure n
  | Option.none => pyRaise

/-- `len(v)`; raises on non-sized values. -/
def pyLen : PyVal → PyM ℤ
  | .str s => pure (s.length : ℤ)
  | .list xs => pure (xs.length : ℤ)
  | .dict d => pure (d.length : ℤ)
  | _ => pyRaise

/-- Iterating a Python value (`for x in v`). -/
def pyIter : PyVal → PyM (List PyVal)
  | .list xs => pure xs
  | .str s => pure (s.toList.map fun c => .str (String.mk [c]))
  | .dict d => pure (d.map fun kv => .str kv.1)
  | _ => pyRaise

/-- `v >= n` against an int; raises unless `v` is numeric. -/
def pyGEInt (v : PyVal) (n : ℤ) : PyM Bool :=
  match v with
  | .bool b => pure (decide ((n : ℚ) ≤ (if b then 1 else 0)))
  | .int m => pure (decide (n ≤ m))
  | .float q => pure (decide ((n : ℚ) ≤ q))
  | _ => pyRaise

/-! ### Label and market normalization (`analyzer.py` lines 12-81) -/

def HOME_LABELS : List String := ["home", "1", "home team", "team 1", "1 home"]
def DRAW_LABELS : List String := ["draw", "x", "empate"]
def AWAY_LABELS : List String := ["away", "2", "away team", "team 2", "2 away"]
def YES_LABELS : List String := ["yes", "sim", "y", "s"]
def NO_LABELS : List String := ["no", "nao", "n"]

/-- The canonical market aliases, in the source's insertion order. -/
def MARKET_ALIASES : List (String × List String) :=
  [("match_winner",
    ["match winner", "1x2", "full time result", "match result", "result",
     "win-draw-win"]),
   ("goals_over_under",
    ["goals over/under", "over/under", "goals", "goals o/u", "total goals"]),
   ("both_teams_score",
    ["both teams score", "both teams to score", "btts", "gg/ng", "goal goal"])]

/-- `_normalize_label`. -/
def normalize_label (value : PyVal) : String :=
  match value with
  | .none => ""
  | _ =>
    let text := pyStr value
    let text := stripAccents text
    let text := replaceChar ')' ' ' (replaceChar '(' ' ' (replaceChar ',' '.' text))
    let text := String.mk (collapseWS text.toList)
    pyLower (pyStrip text)

/-- `_normalize_market_name`. -/
def normalize_market_name (value : PyVal) : String :=
  let normalized := normalize_label value
  if normalized = "" then ""
  else
    match MARKET_ALIASES.find? (fun ca => normalized ∈ ca.2) with
    | some ca => ca.1
    | Option.none => normalized

/-- `_is_over_25_label`. -/
def is_over_25_label (value : PyVal) : Bool :=
  let normalized := normalize_label value
  if normalized = "" then false
  else if strContains normalized "over" || strContains normalized "mais de" then
    strContains normalized "2.5" || strContains normalized "25"
  else false

/-- `_is_under_25_label`. -/
def is_under_25_label (value : PyVal) : Bool :=
  let normalized := normalize_label value
  if normalized = "" then false
  else if strContains normalized "under" || strContains normalized "menos de" then
    strContains normalized "2.5" || strContains normalized "25"
  else false

/-! ### Odds parsing (`analyzer.py` lines 84-128) -/

/-- The first match of `re.search(r"\d+(?:\.\d+)?", cs)`: integer digits and
(possibly empty) fractional digits. -/
def findNumber : List Char → Option (List Char × List Char)
  | [] => Option.none
  | c :: rest =>
    if c.isDigit then
      let ds := (c :: rest).takeWhile Char.isDigit
      let r := (c :: rest).dropWhile Char.isDigit
      match r with
      | '.' :: r2 =>
        let fs := r2.takeWhile Char.isDigit
        some (ds, fs)
      | _ => some (ds, [])
    else findNumber rest

/-- `value if value > 0 else None`, the guard every branch of
`_normalize_odd_value` ends with. -/
def posOnly (q : ℚ) : Option ℚ := if q > 0 then some q else Option.none

/-- The fractional-odds step of `_normalize_odd_value` (lines 99-109) on the
stripped lowercase text.  `some r` means the function returns `r` here;
`Option.none` means control falls through to the regex search. -/
def frac_step (text : String) : Option (Option ℚ) :=
  if strContains text "/" then
    let parts := splitOnChar '/' text.toList
    if parts.length = 2 then
      match pyFloatOfStr (replaceChar ',' '.' (pyStrip (String.mk (parts.get! 0)))),
            pyFloatOfStr (replaceChar ',' '.' (pyStrip (String.mk (parts.get! 1)))) with
      | some numerator, some denominator =>
        if denominator > 0 then
          -- `decimal_value if decimal_value > 0 else None`
          some (posOnly (1 + numerator / denominator))
        else Option.none  -- denominator ≤ 0: falls through to the regex search
      | _, _ => some Option.none  -- float() raised ValueError: return None
    else Option.none
  else Option.none

/-- The regex step of `_normalize_odd_value` (lines 111-121). -/
def regex_step (text : String) : Option ℚ :=
  let cleaned := replaceChar ',' '.' text
  match findNumber cleaned.toList with
  | Option.none => Option.none
  | some (ds, fs) =>
    posOnly ((digitsToNat ds : ℚ) + (digitsToNat fs : ℚ) / (10 : ℚ) ^ fs.length)

/-- `_normalize_odd_value`. -/
def normalize_odd_value (odd : PyVal) : Option ℚ :=
  match odd with
  | .none => Option.none
  | .bool b =>
    -- bool is a subclass of int in Python
    posOnly (if b then 1 else 0)
  | .int n => posOnly (n : ℚ)
  | .float q => posOnly q
  | _ =>
    let text := pyStrip (pyStr odd)
    if text = "" then Option.none
    else
      let text := pyLower text
      -- Support fractional odds such as "3/2".
      match frac_step text with
      | some r => r
      | Option.none => regex_step text

/-- `_calculate_probability`. -/
def calculate_probability (odd : PyVal) : ℤ :=
  match normalize_odd_value odd with
  | Option.none => 0
  | some value => if value ≤ 0 then 0 else pyRound ((1 / value) * 100)

/-! ### The analyzer (`analyze_matches`, lines 131-567) -/

/-- Generic association-list lookup (Python dict read). -/
def assocFind {α : Type} : List (String × α) → String → Option α
  | [], _ => Option.none
  | (k, v) :: rest, key => if k = key then some v else assocFind rest key

/-- Python dict write: replace in place, else append (insertion order). -/
def assocSet {α : Type} : List (String × α) → String → α → List (String × α)
  | [], k, v => [(k, v)]
  | (k', v') :: rest, k, v =>
    if k' = k then (k, v) :: rest else (k', v') :: assocSet rest k v

/-- `v.get(key, default)` under an `isinstance(v, dict)` guard (the default is
also returned in the unreachable non-dict case). -/
def dictGetD (v : PyVal) (key : String) (dflt : PyVal) : PyVal :=
  match v with
  | .dict d => dgetD d key dflt
  | _ => dflt

/-- `statistics.mean`. -/
def qMean (xs : List ℚ) : ℚ := xs.sum / (xs.length : ℚ)

/-- The `predictions` dict of an output entry (seven integer fields). -/
structure Predictions where
  homeWinProbability : ℤ
  drawProbability : ℤ
  awayWinProbability : ℤ
  over25Probability : ℤ
  under25Probability : ℤ
  bttsYesProbability : ℤ
  bttsNoProbability : ℤ

def Predictions.start : Predictions := ⟨0, 0, 0, 0, 0, 0, 0⟩

/-- An output entry: `{**match, "predictions": ..., "recommendedBets": ...,
"confidence": ..., "analysisNotes": ...}`. -/
structure Entry where
  base : List (String × PyVal)
  predictions : Predictions
  recommendedBets : List String
  confidence : String
  analysisNotes : List String

/-- Lines 159-169: first market with a given canonical name wins unless its
stored values list is empty. -/
def buildMarketLookup (odds : List PyVal) : List (String × List PyVal) :=
  odds.foldl (fun lookup market =>
    match market with
    | .dict mk =>
      let name := normalize_market_name (dgetD mk "name" .none)
      if name = "" then lookup
      else
        match assocFind lookup name with
        | some (_ :: _) => lookup
        | _ =>
          match dgetD mk "values" .none with
          | .list values => assocSet lookup name values
          | _ => lookup
    | _ => lookup) []

/-- Lines 182-190: the `match_winner` loop. -/
def apply_match_winner (matchWinner : List PyVal) (p : Predictions) :
    PyM Predictions :=
  matchWinner.foldlM (fun p value => do
    let label := normalize_label (← pyGetD value "value" .none)
    let odd ← pyGetD value "odd" .none
    if label ∈ HOME_LABELS then
      pure { p with homeWinProbability := calculate_probability odd }
    else if label ∈ DRAW_LABELS then
      pure { p with drawProbability := calculate_probability odd }
    else if label ∈ AWAY_LABELS then
      pure { p with awayWinProbability := calculate_probability odd }
    else pure p) p

/-- Lines 192-198: the `goals_over_under` loop. -/
def apply_over_under (overUnder : List PyVal) (p : Predictions) : PyM Predictions :=
  overUnder.foldlM (fun p value => do
    let label ← pyGetD value "value" .none
    let odd ← pyGetD value "odd" .none
    if is_over_25_label label then
      pure { p with over25Probability := calculate_probability odd }
    else if is_under_25_label label then
      pure { p with under25Probability := calculate_probability odd }
    else pure p) p

/-- Lines 200-206: the `both_teams_score` loop. -/
def apply_btts (btts : List PyVal) (p : Predictions) : PyM Predictions :=
  btts.foldlM (fun p value => do
    let label := normalize_label (← pyGetD value "value" .none)
    let odd ← pyGetD value "odd" .none
    if label ∈ YES_LABELS then
      pure { p with bttsYesProbability := calculate_probability odd }
    else if label ∈ NO_LABELS then
      pure { p with bttsNoProbability := calculate_probability odd }
    else pure p) p

/-- The body shared by `_apply_forebet` and `_apply_api_prediction`
(lines 209-220 and 231-242; the two closures are textually identical):
returns the new field value and whether the source was used for it. -/
def apply_percent_field (src : List (String × PyVal)) (key : String) (cur : ℤ) :
    ℤ × Bool :=
  match dgetD src key .none with
  | .none => (cur, false)
  | value =>
    match pyFloatOpt value with
    | Option.none => (cur, false)
    | some q =>
      let number := pyRound q
      if cur = 0 ∧ 0 < number then (max 0 (min 100 number), true)
      else (cur, false)

/-- Lines 208-228. -/
def apply_forebet (forebet : PyVal) (p : Predictions) : Predictions × Bool :=
  match forebet with
  | .dict fb =>
    let (h, u1) := apply_percent_field fb "homeWinProbability" p.homeWinProbability
    let (d, u2) := apply_percent_field fb "drawProbability" p.drawProbability
    let (a, u3) := apply_percent_field fb "awayWinProbability" p.awayWinProbability
    let (o, u4) := apply_percent_field fb "over25Probability" p.over25Probability
    let (u, u5) := apply_percent_field fb "under25Probability" p.under25Probability
    let (y, u6) := apply_percent_field fb "bttsYesProbability" p.bttsYesProbability
    let (n, u7) := apply_percent_field fb "bttsNoProbability" p.bttsNoProbability
    ({ homeWinProbability := h, drawProbability := d, awayWinProbability := a,
       over25Probability := o, under25Probability := u,
       bttsYesProbability := y, bttsNoProbability := n },
     u1 || u2 || u3 || u4 || u5 || u6 || u7)
  | _ => (p, false)

/-- Lines 248-264: the vendor `predictedGoals` over/under lean. -/
def api_predicted_goals (ap : List (String × PyVal)) (p : Predictions) :
    Predictions :=
  match dgetD ap "predictedGoals" .none with
  | .dict pg =>
    let hv := dgetD pg "home" .none
    let av := dgetD pg "away" .none
    if isPyNone hv || isPyNone av then p
    else
      let totalGoals : ℚ :=
        match pyFloatOpt (pyOr hv (.int 0)), pyFloatOpt (pyOr av (.int 0)) with
        | some x, some y => x + y
        | _, _ => 0
      if 3 ≤ totalGoals ∧ p.over25Probability = 0 then
        let v := max 60 (min 85 (pyRound (55 + (totalGoals - 2.5) * 18)))
        { p with over25Probability := v }
      else if totalGoals ≤ 2 ∧ p.under25Probability = 0 then
        let v := max 60 (min 85 (pyRound (58 + (2 - totalGoals) * 18)))
        { p with under25Probability := v }
      else p
  | _ => p

/-- Lines 266-272: the vendor textual under/over hint. -/
def api_under_over_hint (ap : List (String × PyVal)) (p : Predictions) :
    Predictions :=
  let normalizedHint := normalize_label (dgetD ap "underOver" .none)
  if normalizedHint ≠ "" then
    if is_over_25_label (.str normalizedHint) ∧ p.over25Probability = 0 then
      { p with over25Probability := 62 }
    else if is_under_25_label (.str normalizedHint) ∧ p.under25Probability = 0 then
      { p with under25Probability := 62 }
    else p
  else p

/-- Lines 230-272. -/
def apply_api_prediction (apiPrediction : PyVal) (p : Predictions) :
    Predictions × Bool :=
  match apiPrediction with
  | .dict ap =>
    let (h, u1) := apply_percent_field ap "homeWinProbability" p.homeWinProbability
    let (d, u2) := apply_percent_field ap "drawProbability" p.drawProbability
    let (a, u3) := apply_percent_field ap "awayWinProbability" p.awayWinProbability
    let p := { p with homeWinProbability := h, drawProbability := d,
                      awayWinProbability := a }
    let p := api_predicted_goals ap p
    let p := api_under_over_hint ap p
    (p, u1 || u2 || u3)
  | _ => (p, false)

/-- Lines 274-303: recommendation strings and the market confidence score. -/
def recommend_block (m : List (String × PyVal)) (p : Predictions) :
    PyM (List String × ℤ) := do
  let mut recommendations : List String := []
  let mut confidenceScore : ℤ := 0
  let maxProbability :=
    max p.homeWinProbability (max p.awayWinProbability p.drawProbability)
  if 70 ≤ maxProbability then
    let home ← pyGetD (dgetD m "teams" (.dict [])) "home" (.dict [])
    let mut team ← pyGetD home "name" .none
    if p.homeWinProbability < p.awayWinProbability then
      let away ← pyGetD (dgetD m "teams" (.dict [])) "away" (.dict [])
      team ← pyGetD away "name" .none
    recommendations := recommendations ++
      ["ðŸ† Forte favorito: " ++ pyStr team ++ " (" ++ toString maxProbability ++ "%)"]
    confidenceScore := confidenceScore + 3
  else if 55 ≤ maxProbability then
    let home ← pyGetD (dgetD m "teams" (.dict [])) "home" (.dict [])
    let mut team ← pyGetD home "name" .none
    if p.homeWinProbability < p.awayWinProbability then
      let away ← pyGetD (dgetD m "teams" (.dict [])) "away" (.dict [])
      team ← pyGetD away "name" .none
    recommendations := recommendations ++
      ["âœ… Favorito: " ++ pyStr team ++ " (" ++ toString maxProbability ++ "%)"]
    confidenceScore := confidenceScore + 2
  if 60 ≤ p.over25Probability then
    recommendations := recommendations ++
      ["âš½ Over 2.5 golos (" ++ toString p.over25Probability ++ "%)"]
    confidenceScore := confidenceScore + 2
  else if 60 ≤ p.under25Probability then
    recommendations := recommendations ++
      ["ðŸ›¡ï¸ Under 2.5 golos (" ++ toString p.under25Probability ++ "%)"]
    confidenceScore := confidenceScore + 2
  if 60 ≤ p.bttsYesProbability then
    recommendations := recommendations ++
      ["ðŸ¥… Ambos marcam: SIM (" ++ toString p.bttsYesProbability ++ "%)"]
    confidenceScore := confidenceScore + 1
  else if 60 ≤ p.bttsNoProbability then
    recommendations := recommendations ++
      ["ðŸš« Ambos marcam: NÃƒO (" ++ toString p.bttsNoProbability ++ "%)"]
    confidenceScore := confidenceScore + 1
  pure (recommendations, confidenceScore)

/-- `_format_record`: `(record or "")[:5]`. -/
def format_record (record : PyVal) : PyM PyVal :=
  match pyOr record (.str "") with
  | .str s => pure (.str (String.mk (s.toList.take 5)))
  | .list xs => pure (.list (xs.take 5))
  | _ => pyRaise

/-- Lines 305-356: qualitative notes and their confidence boost. -/
def notes_block (home_form away_form head_to_head : PyVal)
    (forebet_used api_prediction_used : Bool) : PyM (List String × ℤ) := do
  let mut notes : List String := []
  let mut qualitativeBoost : ℤ := 0
  if truthy home_form ∧ isDict home_form then
    let streak := dictGetD home_form "currentStreak" (.dict [])
    if isDict streak ∧ pyEqStr (dictGetD streak "type" .none) "win" then
      if ← pyGEInt (dictGetD streak "count" (.int 0)) 3 then
        let fr ← format_record (dictGetD home_form "recentRecord" .none)
        notes := notes ++
          ["Casa com " ++ pyStr (dictGetD streak "count" .none) ++
           " vitÃ³rias seguidas (" ++ pyStr fr ++ ")"]
        qualitativeBoost := qualitativeBoost + 1
  if truthy away_form ∧ isDict away_form then
    let streak := dictGetD away_form "currentStreak" (.dict [])
    if isDict streak ∧ pyEqStr (dictGetD streak "type" .none) "loss" then
      if ← pyGEInt (dictGetD streak "count" (.int 0)) 2 then
        let fr ← format_record (dictGetD away_form "recentRecord" .none)
        notes := notes ++
          ["Visitante sem vencer hÃ¡ " ++ pyStr (dictGetD streak "count" .none) ++
           " jogos (" ++ pyStr fr ++ ")"]
        qualitativeBoost := qualitativeBoost + 1
  let mut avgAttackSamples : List ℚ := []
  if truthy home_form ∧ isDict home_form then
    avgAttackSamples := avgAttackSamples ++
      [← pyFloatE (dictGetD home_form "avgGoalsFor" (.float 0))]
  if truthy away_form ∧ isDict away_form then
    avgAttackSamples := avgAttackSamples ++
      [← pyFloatE (dictGetD away_form "avgGoalsFor" (.float 0))]
  if ¬ avgAttackSamples.isEmpty then
    let avgAttack := qMean avgAttackSamples
    if (1.6 : ℚ) ≤ avgAttack then
      notes := notes ++
        ["TendÃªncia de muitos golos (mÃ©dias ofensivas altas nas Ãºltimas partidas)"]
    else if avgAttack ≤ 1 then
      notes := notes ++ ["TendÃªncia de poucos golos nos Ãºltimos jogos das equipas"]
  if truthy head_to_head ∧ isDict head_to_head then
    let homeWins ← pyIntE (pyOr (dictGetD head_to_head "homeWins" (.int 0)) (.int 0))
    if 3 ≤ homeWins then
      notes := notes ++ ["HistÃ³rico recente favorÃ¡vel ao mandante no confronto direto"]
      qualitativeBoost := qualitativeBoost + 1
    let avgGoalsTotal ←
      pyFloatE (pyOr (dictGetD head_to_head "avgGoalsTotal" (.float 0)) (.float 0))
    if 3 ≤ avgGoalsTotal then
      notes := notes ++ ["Confrontos diretos recentes com mÃ©dia superior a 3 golos"]
  if forebet_used then
    notes := notes ++ ["Probabilidades 1X2 complementadas com dados da Forebet"]
  if api_prediction_used then
    notes := notes ++
      ["Probabilidades complementadas com previsÃµes oficiais da API-FOOTBALL"]
  pure (notes, qualitativeBoost)

/-- `_form_strength` (lines 359-392). -/
def form_strength (form : PyVal) : PyM (Option ℚ) :=
  match form with
  | .dict d =>
    if d.isEmpty then pure Option.none
    else do
      let winRate ← pyFloatE (pyOr (dgetD d "winRate" (.float 0)) (.float 0))
      let drawRate ← pyFloatE (pyOr (dgetD d "drawRate" (.float 0)) (.float 0))
      let lossRate ← pyFloatE (pyOr (dgetD d "lossRate" (.float 0)) (.float 0))
      let goalDiff ← pyFloatE (pyOr (dgetD d "goalDifferenceAvg" (.float 0)) (.float 0))
      let avgFor ← pyFloatE (pyOr (dgetD d "avgGoalsFor" (.float 0)) (.float 0))
      let avgAgainst ← pyFloatE (pyOr (dgetD d "avgGoalsAgainst" (.float 0)) (.float 0))
      let formPoints ← pyFloatE (pyOr (dgetD d "formPoints" (.float 0)) (.float 0))
      let s0 := dgetD d "sampleSize" (.int 0)
      let sampleRaw ←
        if truthy s0 then pyIntE s0
        else pyLen (pyOr (dgetD d "matches" .none) (.list []))
      let sampleSize := max sampleRaw 1
      let streakRaw := dgetD d "currentStreak" .none
      let streak := if isDict streakRaw then streakRaw else .dict []
      let streakBonus : ℚ ←
        if pyEqStr (dictGetD streak "type" .none) "win" then do
          let c ← pyIntE (pyOr (dictGetD streak "count" (.int 0)) (.int 0))
          pure (((min c 5 : ℤ) : ℚ) * 0.08)
        else if pyEqStr (dictGetD streak "type" .none) "loss" then do
          let c ← pyIntE (pyOr (dictGetD streak "count" (.int 0)) (.int 0))
          pure (-(((min c 5 : ℤ) : ℚ) * 0.08))
        else pure 0
      let momentum := min (formPoints / ((sampleSize : ℚ) * 3)) 1
      let defenceQuality := max 0 (3 - min (max avgAgainst 0) 3) / 3
      let attackQuality := min (max avgFor 0) 4 / 4
      let rating : ℚ := 1 + winRate * 1.8 + (1 - lossRate) * 0.6 + drawRate * 0.3
        + max (min goalDiff 3.5) (-3.5) * 0.12 + momentum * 0.4
        + attackQuality * 0.25 + defenceQuality * 0.2 + streakBonus
      pure (some (max 0.35 rating))
  | _ => pure Option.none

/-- One iteration of `_estimate_draw_component`'s loop over
`(home_data, away_data)`: accumulates `(total_samples, draw_bias)`. -/
def draw_component_step (acc : ℤ × ℚ) (data : PyVal) : PyM (ℤ × ℚ) :=
  match data with
  | .dict d =>
    if d.isEmpty then pure acc
    else do
      let dr ← pyFloatE (pyOr (dgetD d "drawRate" (.float 0)) (.float 0))
      let avgTotal ← pyFloatE (pyOr (dgetD d "avgGoalsTotal" (.float 0)) (.float 0))
      pure (acc.1 + 1, acc.2 + dr * 1.2 + max 0 (2.2 - avgTotal) * 0.2)
  | _ => pure acc

/-- `_estimate_draw_component` (lines 394-409), with its two-element loop
unrolled. -/
def estimate_draw_component (home_data away_data : PyVal) : PyM ℚ := do
  let acc ← draw_component_step (0, 0) home_data
  let acc ← draw_component_step acc away_data
  let base : ℚ := if acc.1 ≠ 0 then 0.9 + acc.2 / (acc.1 : ℚ) else 0.9
  pure (max 0.5 (min base 1.8))

/-- Lines 411-440: the heuristic 1X2 fallback (fires only when the whole
triple is zero). -/
def heuristic_1x2 (home_form away_form : PyVal) (p : Predictions) :
    PyM Predictions := do
  if p.homeWinProbability = 0 ∧ p.awayWinProbability = 0 ∧ p.drawProbability = 0 then
    let homeStrength ← form_strength home_form
    let awayStrength ← form_strength away_form
    match homeStrength, awayStrength with
    | Option.none, Option.none =>
      pure { p with homeWinProbability := 38, drawProbability := 24,
                    awayWinProbability := 38 }
    | hs, as' =>
      let h : ℚ := match hs with
        | some q => if q ≠ 0 then q else 0.85
        | Option.none => 0.85
      let a : ℚ := match as' with
        | some q => if q ≠ 0 then q else 0.85
        | Option.none => 0.85
      let drawComponent ← estimate_draw_component home_form away_form
      let total := h + a + drawComponent
      if total ≤ 0 then
        pure { p with homeWinProbability := 38, drawProbability := 24,
                      awayWinProbability := 38 }
      else
        let homePct := pyRound (h / total * 100)
        let drawPct := pyRound (drawComponent / total * 100)
        let awayPct := max 0 (100 - homePct - drawPct)
        pure { p with homeWinProbability := max 0 (min 100 homePct),
                      drawProbability := max 0 (min 100 drawPct),
                      awayWinProbability := max 0 (min 100 awayPct) }
  else pure p

/-- One iteration of the `goal_samples` loop (lines 442-445). -/
def goal_sample_step (samples : List ℚ) (form : PyVal) : PyM (List ℚ) :=
  match form with
  | .dict d =>
    if d.isEmpty then pure samples
    else do
      let v ← pyFloatE (pyOr (dgetD d "avgGoalsTotal" (.float 0)) (.float 0))
      pure (samples ++ [v])
  | _ => pure samples

/-- Lines 442-445: `avgGoalsTotal` samples from the available sides. -/
def goal_samples (home_form away_form : PyVal) : PyM (List ℚ) := do
  let samples ← goal_sample_step [] home_form
  goal_sample_step samples away_form

/-- Lines 447-465: heuristic over/under fallback. -/
def heuristic_over_under (goalSamples : List ℚ) (p : Predictions) : Predictions :=
  if p.over25Probability = 0 ∧ p.under25Probability = 0 ∧ ¬ goalSamples.isEmpty then
    let avgGoals := qMean goalSamples
    let (overProb, underProb) : ℤ × ℤ :=
      if (3.2 : ℚ) ≤ avgGoals then
        let o := min 78 (pyRound (62 + (avgGoals - 3.2) * 12))
        (o, max (100 - o) 18)
      else if avgGoals ≤ 1.8 then
        let u := min 80 (pyRound (64 + (1.8 - avgGoals) * 18))
        (max (100 - u) 18, u)
      else
        let tilt := (avgGoals - 2.5) * 18
        let o := max 40 (min 60 (pyRound (52 + tilt)))
        (o, max 40 (min 60 (100 - o)))
    { p with over25Probability := overProb,
             under25Probability := max 0 (min 100 underProb) }
  else p

/-- One iteration of the BTTS sample loop (lines 475-481): accumulates
`(total_matches, clean_sheets, failures)`. -/
def btts_form_step (acc : ℤ × ℤ × ℤ) (form : PyVal) : PyM (ℤ × ℤ × ℤ) :=
  match form with
  | .dict d =>
    if d.isEmpty then pure acc
    else do
      let s0 := dgetD d "sampleSize" (.int 0)
      let sampleRaw ←
        if truthy s0 then pyIntE s0
        else pyLen (pyOr (dgetD d "matches" .none) (.list []))
      let cs ← pyIntE (pyOr (dgetD d "cleanSheets" (.int 0)) (.int 0))
      let fts ← pyIntE (pyOr (dgetD d "failedToScore" (.int 0)) (.int 0))
      pure (acc.1 + max sampleRaw 1, acc.2.1 + cs, acc.2.2 + fts)
  | _ => pure acc

/-- Lines 467-497: heuristic BTTS fallback. -/
def heuristic_btts (home_form away_form : PyVal) (goalSamples : List ℚ)
    (p : Predictions) : PyM Predictions := do
  if p.bttsYesProbability = 0 ∧ p.bttsNoProbability = 0 ∧ ¬ goalSamples.isEmpty then
    let acc ← btts_form_step (0, 0, 0) home_form
    let acc ← btts_form_step acc away_form
    let totalMatches := acc.1
    let cleanSheets := acc.2.1
    let failures := acc.2.2
    let shutoutRate : ℚ :=
      if totalMatches ≠ 0 then (cleanSheets : ℚ) / (totalMatches : ℚ) else 0
    let failRate : ℚ :=
      if totalMatches ≠ 0 then (failures : ℚ) / (totalMatches : ℚ) else 0
    let avgGoals := qMean goalSamples
    let yesScore := (1 - shutoutRate) * 0.5 + (1 - failRate) * 0.3
      + max 0 (avgGoals - 2.3) * 0.25
    let noScore := shutoutRate * 0.5 + failRate * 0.3
      + max 0 (2.3 - avgGoals) * 0.25
    if noScore ≤ yesScore then
      let yesProb := max 35 (min 80 (pyRound (yesScore * 100)))
      pure { p with bttsYesProbability := yesProb,
                    bttsNoProbability := max 0 (min 100 (100 - yesProb)) }
    else
      let noProb := max 35 (min 80 (pyRound (noScore * 100)))
      pure { p with bttsNoProbability := noProb,
                    bttsYesProbability := max 0 (min 100 (100 - noProb)) }
  else pure p

/-- `home_form = (form_data or {}).get(key) if isinstance(form_data, dict)
else None` (lines 309-311). -/
def subForm (form_data : PyVal) (key : String) : PyVal :=
  match form_data with
  | .dict d => dgetD d key .none
  | _ => .none

/-- Lines 159-272: markets, then the forebet and vendor fallbacks.  Returns
the predictions after all direct signal sources together with the
`forebet_used` / `api_prediction_used` flags. -/
def signal_stage (m : List (String × PyVal)) (oddsItems : List PyVal) :
    PyM (Predictions × Bool × Bool) := do
  let marketLookup := buildMarketLookup oddsItems
  let matchWinner := (assocFind marketLookup "match_winner").getD []
  let overUnder := (assocFind marketLookup "goals_over_under").getD []
  let btts := (assocFind marketLookup "both_teams_score").getD []
  let forebet := dgetD m "forebet" .none
  let apiPrediction := dgetD m "apiFootballPrediction" .none
  let p ← apply_match_winner matchWinner Predictions.start
  let p ← apply_over_under overUnder p
  let p ← apply_btts btts p
  let (p, forebetUsed) := apply_forebet forebet p
  let (p, apiPredictionUsed) := apply_api_prediction apiPrediction p
  pure (p, forebetUsed, apiPredictionUsed)

/-- The per-match loop body of `analyze_matches` (lines 137-509). -/
def analyze_one (m : List (String × PyVal)) : PyM Entry := do
  let odds := pyOr (dgetD m "odds" .none) (.list [])
  if ¬ truthy odds then
    pure { base := m, predictions := Predictions.start, recommendedBets := [],
           confidence := "low", analysisNotes := [] }
  else do
    let oddsItems ← pyIter odds
    let (p, forebetUsed, apiPredictionUsed) ← signal_stage m oddsItems
    let (recommendations, confidenceScore) ← recommend_block m p
    let formData := dgetD m "form" .none
    let homeForm := subForm formData "home"
    let awayForm := subForm formData "away"
    let headToHead := subForm formData "headToHead"
    let (notes, qualitativeBoost) ←
      notes_block homeForm awayForm headToHead forebetUsed apiPredictionUsed
    let p ← heuristic_1x2 homeForm awayForm p
    let goalSamples ← goal_samples homeForm awayForm
    let p := heuristic_over_under goalSamples p
    let p ← heuristic_btts homeForm awayForm goalSamples p
    let confidenceTotal := confidenceScore + qualitativeBoost
    let confidence := if 5 ≤ confidenceTotal then "high"
      else if 3 ≤ confidenceTotal then "medium" else "low"
    pure { base := m, predictions := p, recommendedBets := recommendations,
           confidence := confidence, analysisNotes := notes.take 3 }

/-! ### Ranking and region aggregation (lines 511-567) -/

/-- `confidence_rank.get(item.get("confidence", "low"), 0)`. -/
def confidence_rank (c : String) : ℤ :=
  if c = "high" then 3 else if c = "medium" then 2 else if c = "low" then 1 else 0

/-- The ranking key (lines 513-522). -/
def score (item : Entry) : ℤ :=
  let p := item.predictions
  let maxProbability :=
    max p.homeWinProbability (max p.drawProbability p.awayWinProbability)
  confidence_rank item.confidence * 1000
    + (item.recommendedBets.length : ℤ) * 10 + maxProbability

/-- Stable insert for a descending sort: `a` is placed before the first
element whose score is `≤ score a` (so, building the sort with `foldr`, an
earlier input element precedes later ones of equal score). -/
def insert_desc (a : Entry) : List Entry → List Entry
  | [] => [a]
  | b :: l => if score b ≤ score a then a :: b :: l else b :: insert_desc a l

/-- `sorted(analyzed, key=score, reverse=True)`: Python's `sorted` is a
stable sort, modelled by stable insertion sort (extensionally the unique
stable descending sort for this key). -/
def sort_desc (l : List Entry) : List Entry := l.foldr insert_desc []

/-- The fields of `CompetitionIndex` (competitions.py) that the analyzer
reads: the ordered region keys and the region display labels. -/
structure CompetitionIndex where
  region_order : List String
  region_label : List (String × String)

/-- One element of `breakdownByRegion`. -/
structure RegionStat where
  region : String
  label : String
  total : ℕ
  highConfidence : ℕ
  mediumConfidence : ℕ

/-- One element of `bestMatchesByRegion`. -/
structure RegionBest where
  region : String
  label : String
  matchList : List Entry
  topMatches : List Entry

/-- The analyzer's result object (lines 559-567). -/
structure AnalysisResult where
  totalAnalyzed : ℕ
  bestMatches : List Entry
  allMatches : List Entry
  highConfidenceCount : ℕ
  mediumConfidenceCount : ℕ
  breakdownByRegion : List RegionStat
  bestMatchesByRegion : List RegionBest

/-- One key of the dict comprehension `{region: [] for region in
index.region_order}`: a repeated region key rebinds to the same `[]`. -/
def ib_step (b : List (String × List Entry)) (r : String) :
    List (String × List Entry) :=
  match assocFind b r with
  | some _ => b
  | Option.none => b ++ [(r, [])]

/-- `buckets = {region: [] for region in index.region_order}`. -/
def init_buckets (ro : List String) : List (String × List Entry) :=
  ro.foldl ib_step []

/-- `buckets.setdefault(region, []).append(match)`. -/
def add_bucket (buckets : List (String × List Entry)) (region : String)
    (e : Entry) : List (String × List Entry) :=
  match assocFind buckets region with
  | some l => assocSet buckets region (l ++ [e])
  | Option.none => buckets ++ [(region, [e])]

/-- `match.get("competition", {}).get("region")` (line 528): raises when the
stored `competition` value is not a dict. -/
def entry_region (e : Entry) : PyM PyVal :=
  pyGetD (dgetD e.base "competition" (.dict [])) "region" .none

/-- The body of the bucketing loop (lines 527-531). -/
def bucket_step (buckets : List (String × List Entry)) (e : Entry) :
    PyM (List (String × List Entry)) := do
  let region ← entry_region e
  match region with
  | .str r => pure (add_bucket buckets r e)
  | _ => pure buckets

/-- Lines 526-531: region bucketing (skips non-string regions). -/
def build_buckets (ro : List String) (analyzed : List Entry) :
    PyM (List (String × List Entry)) :=
  analyzed.foldlM bucket_step (init_buckets ro)

/-- `analyze_matches` (lines 131-567). -/
def analyze_matches (matchList : List (List (String × PyVal)))
    (index : CompetitionIndex) : PyM AnalysisResult := do
  let analyzed ← matchList.mapM analyze_one
  let sortedMatches := sort_desc analyzed
  let buckets ← build_buckets index.region_order analyzed
  let breakdown : List RegionStat := index.region_order.map fun region =>
    let matchesForRegion := (assocFind buckets region).getD []
    { region := region
      label := (assocFind index.region_label region).getD region
      total := matchesForRegion.length
      highConfidence := (matchesForRegion.filter fun e => e.confidence = "high").length
      mediumConfidence := (matchesForRegion.filter fun e => e.confidence = "medium").length }
  let bestByRegion : List RegionBest := index.region_order.map fun region =>
    let matchesForRegion := (assocFind buckets region).getD []
    let ordered := sort_desc matchesForRegion
    { region := region
      label := (assocFind index.region_label region).getD region
      matchList := ordered
      topMatches := ordered.take 5 }
  pure { totalAnalyzed := analyzed.length
         bestMatches := sortedMatches.take 10
         allMatches := sortedMatches
         highConfidenceCount := (sortedMatches.filter fun e => e.confidence = "high").length
         mediumConfidenceCount := (sortedMatches.filter fun e => e.confidence = "medium").length
         breakdownByRegion := breakdown
         bestMatchesByRegion := bestByRegion }

/-- The odds object the analyzer iterates: `match.get("odds") or []`. -/
def odds_value (m : List (String × PyVal)) : PyVal :=
  pyOr (dgetD m "odds" .none) (.list [])

/-- The outcome list a canonical market contributes for a match:
`market_lookup.get(name, [])` over the iterated odds. -/
def market_values (m : List (String × PyVal)) (name : String) :
    PyM (List PyVal) := do
  let items ← pyIter (odds_value m)
  pure ((assocFind (buildMarketLookup items) name).getD [])

/-! ## Basic lemmas about the exception monad -/

theorem bind_ok {α β : Type} {e : PyM α} {f : α → PyM β} {v : β}
    (h : e >>= f = .ok v) : ∃ x, e = .ok x ∧ f x = .ok v := by
  cases e with
  | ok x => exact ⟨x, rfl, h⟩
  | error err => simp [Bind.bind, Except.bind] at h

theorem pure_ok {α : Type} {x v : α} (h : (pure x : PyM α) = .ok v) : x = v := by
  simpa [pure, Except.pure] using h

theorem ok_of_isSome {α : Type} {e : PyM α} (h : e.toOption.isSome) :
    e = .ok (e.toOption.get h) := by
  cases e with
  | ok x => rfl
  | error err => simp [Except.toOption] at h

/-! ## Bounds for Python rounding -/

theorem pyRound_le (q : ℚ) : (pyRound q : ℚ) ≤ q + 1/2 := by
  unfold pyRound
  have h1 : ((⌊q⌋ : ℤ) : ℚ) ≤ q := Int.floor_le q
  have h2 : q < (⌊q⌋ : ℚ) + 1 := Int.lt_floor_add_one q
  split
  · linarith
  · split
    · push_cast
      linarith
    · split <;> push_cast <;> linarith

theorem le_pyRound (q : ℚ) : q - 1/2 ≤ (pyRound q : ℚ) := by
  unfold pyRound
  have h1 : ((⌊q⌋ : ℤ) : ℚ) ≤ q := Int.floor_le q
  have h2 : q < (⌊q⌋ : ℚ) + 1 := Int.lt_floor_add_one q
  split
  · linarith
  · split
    · push_cast
      linarith
    · split <;> push_cast <;> linarith

theorem pyRound_le_int {q : ℚ} {k : ℤ} (h : q ≤ (k : ℚ)) : pyRound q ≤ k := by
  have h1 := pyRound_le q
  have h2 : (pyRound q : ℚ) < (k : ℚ) + 1 := by linarith
  have h3 : pyRound q < k + 1 := by exact_mod_cast h2
  omega

theorem int_le_pyRound {q : ℚ} {k : ℤ} (h : (k : ℚ) ≤ q) : k ≤ pyRound q := by
  have h1 := le_pyRound q
  have h2 : ((k : ℤ) : ℚ) - 1 < (pyRound q : ℚ) := by linarith
  have h3 : k - 1 < pyRound q := by exact_mod_cast h2
  omega

theorem pyRound_nonneg {q : ℚ} (h : 0 ≤ q) : 0 ≤ pyRound q :=
  @int_le_pyRound q 0 (by exact_mod_cast h)

/-! ## Field-preservation lemmas for the signal stages -/

theorem pyGetD_ok {v : PyVal} {k : String} {dflt x : PyVal}
    (h : pyGetD v k dflt = .ok x) : ∃ d, v = .dict d ∧ x = dgetD d k dflt := by
  cases v <;> simp_all [pyGetD, pyRaise, pure, Except.pure]

theorem apply_over_under_1x2 {vs : List PyVal} {p q : Predictions}
    (h : apply_over_under vs p = .ok q) :
    q.homeWinProbability = p.homeWinProbability ∧
    q.drawProbability = p.drawProbability ∧
    q.awayWinProbability = p.awayWinProbability := by
  induction vs generalizing p with
  | nil =>
    have := pure_ok (by simpa [apply_over_under] using h)
    subst this
    exact ⟨rfl, rfl, rfl⟩
  | cons v vs ih =>
    rw [apply_over_under, List.foldlM_cons] at h
    obtain ⟨p₁, hstep, hrest⟩ := bind_ok h
    have hrest' : apply_over_under vs p₁ = .ok q := hrest
    obtain ⟨e1, e2, e3⟩ := ih hrest'
    obtain ⟨lv, hlv, hstep⟩ := bind_ok hstep
    obtain ⟨ov, hov, hstep⟩ := bind_ok hstep
    split at hstep <;> [skip; split at hstep] <;>
      (have hq := pure_ok hstep; subst hq; simp_all)

theorem apply_btts_1x2 {vs : List PyVal} {p q : Predictions}
    (h : apply_btts vs p = .ok q) :
    q.homeWinProbability = p.homeWinProbability ∧
    q.drawProbability = p.drawProbability ∧
    q.awayWinProbability = p.awayWinProbability := by
  induction vs generalizing p with
  | nil =>
    have := pure_ok (by simpa [apply_btts] using h)
    subst this
    exact ⟨rfl, rfl, rfl⟩
  | cons v vs ih =>
    rw [apply_btts, List.foldlM_cons] at h
    obtain ⟨p₁, hstep, hrest⟩ := bind_ok h
    have hrest' : apply_btts vs p₁ = .ok q := hrest
    obtain ⟨e1, e2, e3⟩ := ih hrest'
    obtain ⟨lv, hlv, hstep⟩ := bind_ok hstep
    obtain ⟨ov, hov, hstep⟩ := bind_ok hstep
    split at hstep <;> [skip; split at hstep] <;>
      (have hq := pure_ok hstep; subst hq; simp_all)

theorem apply_percent_field_of_ne {src : List (String × PyVal)} {key : String}
    {cur : ℤ} (h : cur ≠ 0) : apply_percent_field src key cur = (cur, false) := by
  unfold apply_percent_field
  split
  · rfl
  · split
    · rfl
    · simp [h]

theorem apply_forebet_1x2_of_ne {fb : PyVal} {p : Predictions}
    (hh : p.homeWinProbability ≠ 0) (hd : p.drawProbability ≠ 0)
    (ha : p.awayWinProbability ≠ 0) :
    (apply_forebet fb p).1.homeWinProbability = p.homeWinProbability ∧
    (apply_forebet fb p).1.drawProbability = p.drawProbability ∧
    (apply_forebet fb p).1.awayWinProbability = p.awayWinProbability := by
  cases fb <;>
    simp [apply_forebet, apply_percent_field_of_ne hh,
      apply_percent_field_of_ne hd, apply_percent_field_of_ne ha]

theorem api_predicted_goals_1x2 (ap : List (String × PyVal)) (p : Predictions) :
    (api_predicted_goals ap p).homeWinProbability = p.homeWinProbability ∧
    (api_predicted_goals ap p).drawProbability = p.drawProbability ∧
    (api_predicted_goals ap p).awayWinProbability = p.awayWinProbability := by
  unfold api_predicted_goals
  split
  · dsimp only
    split
    · exact ⟨rfl, rfl, rfl⟩
    · split
      · exact ⟨rfl, rfl, rfl⟩
      · split
        · exact ⟨rfl, rfl, rfl⟩
        · exact ⟨rfl, rfl, rfl⟩
  · exact ⟨rfl, rfl, rfl⟩

theorem api_under_over_hint_1x2 (ap : List (String × PyVal)) (p : Predictions) :
    (api_under_over_hint ap p).homeWinProbability = p.homeWinProbability ∧
    (api_under_over_hint ap p).drawProbability = p.drawProbability ∧
    (api_under_over_hint ap p).awayWinProbability = p.awayWinProbability := by
  unfold api_under_over_hint
  dsimp only
  split
  · split
    · exact ⟨rfl, rfl, rfl⟩
    · split
      · exact ⟨rfl, rfl, rfl⟩
      · exact ⟨rfl, rfl, rfl⟩
  · exact ⟨rfl, rfl, rfl⟩

theorem apply_api_prediction_1x2_of_ne {ap : PyVal} {p : Predictions}
    (hh : p.homeWinProbability ≠ 0) (hd : p.drawProbability ≠ 0)
    (ha : p.awayWinProbability ≠ 0) :
    (apply_api_prediction ap p).1.homeWinProbability = p.homeWinProbability ∧
    (apply_api_prediction ap p).1.drawProbability = p.drawProbability ∧
    (apply_api_prediction ap p).1.awayWinProbability = p.awayWinProbability := by
  cases ap with
  | dict d =>
    have h1 := api_predicted_goals_1x2 d
      { p with homeWinProbability := p.homeWinProbability,
               drawProbability := p.drawProbability,
               awayWinProbability := p.awayWinProbability }
    simp only [apply_api_prediction, apply_percent_field_of_ne hh,
      apply_percent_field_of_ne hd, apply_percent_field_of_ne ha]
    obtain ⟨g1, g2, g3⟩ := api_predicted_goals_1x2 d
      { p with homeWinProbability := p.homeWinProbability,
               drawProbability := p.drawProbability,
               awayWinProbability := p.awayWinProbability }
    obtain ⟨k1, k2, k3⟩ := api_under_over_hint_1x2 d
      (api_predicted_goals d
        { p with homeWinProbability := p.homeWinProbability,
                 drawProbability := p.drawProbability,
                 awayWinProbability := p.awayWinProbability })
    refine ⟨?_, ?_, ?_⟩ <;> simp_all
  | _ => exact ⟨rfl, rfl, rfl⟩

theorem heuristic_1x2_skip {hf af : PyVal} {p : Predictions}
    (h : ¬ (p.homeWinProbability = 0 ∧ p.awayWinProbability = 0 ∧
            p.drawProbability = 0)) :
    heuristic_1x2 hf af p = .ok p := by
  simp only [heuristic_1x2, h]
  rfl

theorem heuristic_over_under_1x2 (gs : List ℚ) (p : Predictions) :
    (heuristic_over_under gs p).homeWinProbability = p.homeWinProbability ∧
    (heuristic_over_under gs p).drawProbability = p.drawProbability ∧
    (heuristic_over_under gs p).awayWinProbability = p.awayWinProbability := by
  unfold heuristic_over_under
  split <;> simp

theorem heuristic_btts_1x2 {hf af : PyVal} {gs : List ℚ} {p q : Predictions}
    (h : heuristic_btts hf af gs p = .ok q) :
    q.homeWinProbability = p.homeWinProbability ∧
    q.drawProbability = p.drawProbability ∧
    q.awayWinProbability = p.awayWinProbability := by
  unfold heuristic_btts at h
  split at h
  · obtain ⟨a1, h1, h⟩ := bind_ok h
    obtain ⟨a2, h2, h⟩ := bind_ok h
    dsimp only at h
    repeat' split at h
    all_goals (have hq := pure_ok h; subst hq; exact ⟨rfl, rfl, rfl⟩)
  · have := pure_ok h
    subst this
    exact ⟨rfl, rfl, rfl⟩

/-! ## Claim C5: the probability converter contract -/

theorem posOnly_pos {q p : ℚ} (h : posOnly q = some p) : 0 < p := by
  unfold posOnly at h
  split at h
  · cases h
    assumption
  · cases h

theorem frac_step_pos {text : String} {r : Option ℚ} {p : ℚ}
    (hf : frac_step text = some r) (h : r = some p) : 0 < p := by
  unfold frac_step at hf
  split at hf
  · dsimp only at hf
    split at hf
    · split at hf
      · split at hf
        · cases hf
          exact posOnly_pos h
        · cases hf
      · cases hf
        cases h
    · cases hf
  · cases hf

theorem regex_step_pos {text : String} {p : ℚ}
    (h : regex_step text = some p) : 0 < p := by
  unfold regex_step at h
  dsimp only at h
  split at h
  · cases h
  · exact posOnly_pos h

theorem normalize_odd_value_pos {odd : PyVal} {p : ℚ}
    (h : normalize_odd_value odd = some p) : 0 < p := by
  unfold normalize_odd_value at h
  cases odd
  case none => cases h
  case bool b => exact posOnly_pos h
  case int n => exact posOnly_pos h
  case float q => exact posOnly_pos h
  all_goals
    dsimp only at h
    split at h
    · cases h
    · split at h
      · exact frac_step_pos (by assumption) h
      · exact regex_step_pos h

/-- C5: whenever a price parses (numeric value, numeric string, `"N/D"`
fraction, or free text with a decimal number) to a positive value `p`, the
probability is `round((1/p)*100)`; otherwise it is `0`. -/
theorem C5_probability_contract (odd : PyVal) :
    (∀ p, normalize_odd_value odd = some p →
        0 < p ∧ calculate_probability odd = pyRound ((1 / p) * 100)) ∧
    (normalize_odd_value odd = Option.none → calculate_probability odd = 0) := by
  constructor
  · intro p hp
    have hpos := normalize_odd_value_pos hp
    refine ⟨hpos, ?_⟩
    unfold calculate_probability
    rw [hp]
    dsimp only
    rw [if_neg (not_le.mpr hpos)]
  · intro hn
    unfold calculate_probability
    rw [hn]

/-! ## Claim C2: a match without odds markets gets the default entry -/

theorem pyOr_eq_snd_of_not_truthy {v w : PyVal} (h : truthy v = false) :
    pyOr v w = w := by
  simp [pyOr, h]

/-- C2: a match whose `odds` key is absent or holds an empty list produces
the untouched default entry: all seven probabilities `0`, no recommended
bets, confidence `low` (and no notes) — the heuristic fallback never runs
for such a match because of the early `continue`. -/
theorem C2_no_odds_default (m : List (String × PyVal)) (e : Entry)
    (hodds : dfind m "odds" = Option.none ∨ dgetD m "odds" .none = .list [])
    (he : analyze_one m = .ok e) :
    e.predictions.homeWinProbability = 0 ∧ e.predictions.drawProbability = 0 ∧
    e.predictions.awayWinProbability = 0 ∧ e.predictions.over25Probability = 0 ∧
    e.predictions.under25Probability = 0 ∧ e.predictions.bttsYesProbability = 0 ∧
    e.predictions.bttsNoProbability = 0 ∧ e.recommendedBets = [] ∧
    e.confidence = "low" ∧ e.analysisNotes = [] := by
  have hov : pyOr (dgetD m "odds" .none) (.list []) = .list [] := by
    rcases hodds with h | h
    · have : dgetD m "odds" .none = .none := by simp [dgetD, h]
      rw [this]
      rfl
    · rw [h]
      rfl
  unfold analyze_one at he
  rw [hov] at he
  dsimp only at he
  rw [if_pos (show ¬ truthy (PyVal.list []) = true by decide)] at he
  have := pure_ok he
  subst this
  exact ⟨rfl, rfl, rfl, rfl, rfl, rfl, rfl, rfl, rfl, rfl⟩

/-! ## Claim C6: duplicate outcome labels within one market -/

/-- Is an odds entry labelled as a home outcome (for a dict entry; non-dict
entries raise inside the loop and never produce a result)? -/
def home_labeled (v : PyVal) : Bool :=
  decide (normalize_label (dictGetD v "value" .none) ∈ HOME_LABELS)

def draw_labeled (v : PyVal) : Bool :=
  decide (normalize_label (dictGetD v "value" .none) ∈ DRAW_LABELS)

def away_labeled (v : PyVal) : Bool :=
  decide (normalize_label (dictGetD v "value" .none) ∈ AWAY_LABELS)

theorem home_not_draw {s : String} (h : s ∈ HOME_LABELS) : s ∉ DRAW_LABELS := by
  intro h2
  simp [HOME_LABELS] at h
  simp [DRAW_LABELS] at h2
  rcases h with h | h | h | h | h <;> rcases h2 with h2 | h2 | h2 <;>
    simp_all

theorem home_not_away {s : String} (h : s ∈ HOME_LABELS) : s ∉ AWAY_LABELS := by
  intro h2
  simp [HOME_LABELS] at h
  simp [AWAY_LABELS] at h2
  rcases h with h | h | h | h | h <;> rcases h2 with h2 | h2 | h2 | h2 | h2 <;>
    simp_all

theorem draw_not_away {s : String} (h : s ∈ DRAW_LABELS) : s ∉ AWAY_LABELS := by
  intro h2
  simp [DRAW_LABELS] at h
  simp [AWAY_LABELS] at h2
  rcases h with h | h | h <;> rcases h2 with h2 | h2 | h2 | h2 | h2 <;>
    simp_all

/-- C6 (amended): within one recognized market, each 1X2 output field takes
the value of the LAST entry carrying that outcome label (later occurrences
overwrite earlier ones), or keeps its incoming value if no entry carries the
label. -/
theorem C6_amended_last_occurrence_wins {mw : List PyVal} {p q : Predictions}
    (h : apply_match_winner mw p = .ok q) :
    q.homeWinProbability = (match mw.reverse.find? home_labeled with
      | some w => calculate_probability (dictGetD w "odd" .none)
      | Option.none => p.homeWinProbability) ∧
    q.drawProbability = (match mw.reverse.find? draw_labeled with
      | some w => calculate_probability (dictGetD w "odd" .none)
      | Option.none => p.drawProbability) ∧
    q.awayWinProbability = (match mw.reverse.find? away_labeled with
      | some w => calculate_probability (dictGetD w "odd" .none)
      | Option.none => p.awayWinProbability) := by
  induction mw generalizing p with
  | nil =>
    have := pure_ok (by simpa [apply_match_winner] using h)
    subst this
    exact ⟨rfl, rfl, rfl⟩
  | cons v vs ih =>
    rw [apply_match_winner, List.foldlM_cons] at h
    obtain ⟨p₁, hstep, hrest⟩ := bind_ok h
    have hrest' : apply_match_winner vs p₁ = .ok q := hrest
    obtain ⟨e1, e2, e3⟩ := ih hrest'
    obtain ⟨lv, hlv, hstep⟩ := bind_ok hstep
    obtain ⟨ov, hov, hstep⟩ := bind_ok hstep
    obtain ⟨d, rfl, rfl⟩ := pyGetD_ok hlv
    obtain ⟨d', hd', rfl⟩ := pyGetD_ok hov
    simp only [PyVal.dict.injEq] at hd'
    subst hd'
    simp only [List.reverse_cons, List.find?_append]
    refine ⟨?_, ?_, ?_⟩
    · rw [e1]
      cases hfind : vs.reverse.find? home_labeled with
      | some w => simp [hfind]
      | none =>
        simp only [hfind, Option.none_or]
        split at hstep
        · rename_i hmem
          have := pure_ok hstep
          subst this
          simp [List.find?, home_labeled, dictGetD, hmem]
        · split at hstep
          · rename_i hnot hmem
            have := pure_ok hstep
            subst this
            simp [List.find?, home_labeled, dictGetD, hnot]
          · split at hstep
            · rename_i hnot1 hnot2 hmem
              have := pure_ok hstep
              subst this
              simp [List.find?, home_labeled, dictGetD, hnot1]
            · rename_i hnot1 hnot2 hnot3
              have := pure_ok hstep
              subst this
              simp [List.find?, home_labeled, dictGetD, hnot1]
    · rw [e2]
      cases hfind : vs.reverse.find? draw_labeled with
      | some w => simp [hfind]
      | none =>
        simp only [hfind, Option.none_or]
        split at hstep
        · rename_i hmem
          have := pure_ok hstep
          subst this
          simp [List.find?, draw_labeled, dictGetD, home_not_draw hmem]
        · split at hstep
          · rename_i hnot hmem
            have := pure_ok hstep
            subst this
            simp [List.find?, draw_labeled, dictGetD, hmem]
          · split at hstep
            · rename_i hnot1 hnot2 hmem
              have := pure_ok hstep
              subst this
              simp [List.find?, draw_labeled, dictGetD, hnot2]
            · rename_i hnot1 hnot2 hnot3
              have := pure_ok hstep
              subst this
              simp [List.find?, draw_labeled, dictGetD, hnot2]
    · rw [e3]
      cases hfind : vs.reverse.find? away_labeled with
      | some w => simp [hfind]
      | none =>
        simp only [hfind, Option.none_or]
        split at hstep
        · rename_i hmem
          have := pure_ok hstep
          subst this
          simp [List.find?, away_labeled, dictGetD, home_not_away hmem]
        · split at hstep
          · rename_i hnot hmem
            have := pure_ok hstep
            subst this
            simp [List.find?, away_labeled, dictGetD, draw_not_away hmem]
          · split at hstep
            · rename_i hnot1 hnot2 hmem
              have := pure_ok hstep
              subst this
              simp [List.find?, away_labeled, dictGetD, hmem]
            · rename_i hnot1 hnot2 hnot3
              have := pure_ok hstep
              subst this
              simp [List.find?, away_labeled, dictGetD, hnot3]

/-! ## Claim C1: market odds win over every fallback source -/

/-- C1: when the odds contain a populated `match_winner` market whose
recognized labels produce three nonzero probabilities `q`, the output 1X2
fields equal exactly those market-derived probabilities, whatever forebet,
vendor-prediction or form data the match carries. -/
theorem C1_market_precedence (m : List (String × PyVal)) (e : Entry)
    (mw : List PyVal) (q : Predictions)
    (hmv : market_values m "match_winner" = .ok mw)
    (happ : apply_match_winner mw Predictions.start = .ok q)
    (hh : q.homeWinProbability ≠ 0) (hd : q.drawProbability ≠ 0)
    (ha : q.awayWinProbability ≠ 0)
    (he : analyze_one m = .ok e) :
    e.predictions.homeWinProbability = q.homeWinProbability ∧
    e.predictions.drawProbability = q.drawProbability ∧
    e.predictions.awayWinProbability = q.awayWinProbability := by
  unfold analyze_one at he
  dsimp only at he
  split at he
  case isTrue hcond =>
    -- no odds: then the match-winner list is empty and `q` would be all zero
    exfalso
    have hfalse : truthy (pyOr (dgetD m "odds" .none) (.list [])) = false :=
      Bool.of_not_eq_true hcond
    have hov : pyOr (dgetD m "odds" .none) (.list []) = .list [] := by
      have hf2 := hfalse
      unfold pyOr at hf2
      cases htr2 : truthy (dgetD m "odds" .none) with
      | false => simp [pyOr, htr2]
      | true => simp [htr2] at hf2
    have hmv0 : market_values m "match_winner" = .ok [] := by
      unfold market_values odds_value
      rw [hov]
      rfl
    rw [hmv0] at hmv
    injection hmv with hmw
    subst hmw
    have hq : Predictions.start = q := pure_ok (by simpa [apply_match_winner] using happ)
    exact hh (by rw [← hq]; rfl)
  case isFalse hcond =>
    obtain ⟨items, hitems, he⟩ := bind_ok he
    have hmw_eq : mw = (assocFind (buildMarketLookup items) "match_winner").getD [] := by
      unfold market_values odds_value at hmv
      rw [hitems] at hmv
      simp only [bind, Except.bind, pure, Except.pure, Except.ok.injEq] at hmv
      exact hmv.symm
    obtain ⟨⟨p5, fu, au⟩, hsig, he⟩ := bind_ok he
    -- dissect the signal stage
    unfold signal_stage at hsig
    dsimp only at hsig
    obtain ⟨p1, h1, hsig⟩ := bind_ok hsig
    rw [← hmw_eq, happ] at h1
    injection h1 with h1
    subst h1
    obtain ⟨p2, h2, hsig⟩ := bind_ok hsig
    obtain ⟨p3, h3, hsig⟩ := bind_ok hsig
    obtain ⟨o1, o2, o3⟩ := apply_over_under_1x2 h2
    obtain ⟨b1, b2, b3⟩ := apply_btts_1x2 h3
    rcases hfb : apply_forebet (dgetD m "forebet" .none) p3 with ⟨pf, uf⟩
    rcases hap : apply_api_prediction (dgetD m "apiFootballPrediction" .none) pf
      with ⟨pa, ua⟩
    rw [hfb] at hsig
    dsimp only at hsig
    rw [hap] at hsig
    dsimp only at hsig
    have htup := pure_ok hsig
    have hp5 : pa = p5 := congrArg Prod.fst htup
    -- the 1X2 fields survive the forebet and vendor passes
    have h3h : p3.homeWinProbability = q.homeWinProbability := by rw [b1, o1]
    have h3d : p3.drawProbability = q.drawProbability := by rw [b2, o2]
    have h3a : p3.awayWinProbability = q.awayWinProbability := by rw [b3, o3]
    have hf3h : p3.homeWinProbability ≠ 0 := by rw [h3h]; exact hh
    have hf3d : p3.drawProbability ≠ 0 := by rw [h3d]; exact hd
    have hf3a : p3.awayWinProbability ≠ 0 := by rw [h3a]; exact ha
    obtain ⟨f1, f2, f3⟩ :=
      @apply_forebet_1x2_of_ne (dgetD m "forebet" .none) p3 hf3h hf3d hf3a
    rw [hfb] at f1 f2 f3
    have hpfh : pf.homeWinProbability = q.homeWinProbability := by rw [f1, h3h]
    have hpfd : pf.drawProbability = q.drawProbability := by rw [f2, h3d]
    have hpfa : pf.awayWinProbability = q.awayWinProbability := by rw [f3, h3a]
    obtain ⟨g1, g2, g3⟩ :=
      @apply_api_prediction_1x2_of_ne (dgetD m "apiFootballPrediction" .none)
        pf (by rw [hpfh]; exact hh) (by rw [hpfd]; exact hd)
        (by rw [hpfa]; exact ha)
    rw [hap] at g1 g2 g3
    have hp5h : p5.homeWinProbability = q.homeWinProbability := by
      rw [← hp5, g1, hpfh]
    have hp5d : p5.drawProbability = q.drawProbability := by
      rw [← hp5, g2, hpfd]
    have hp5a : p5.awayWinProbability = q.awayWinProbability := by
      rw [← hp5, g3, hpfa]
    -- continue through the rest of the per-match pipeline
    try dsimp only at he
    obtain ⟨rc, hrec, he⟩ := bind_ok he
    rcases rc with ⟨recs, cs⟩
    try dsimp only at he
    obtain ⟨nb, hnotes, he⟩ := bind_ok he
    rcases nb with ⟨notes, boost⟩
    try dsimp only at he
    obtain ⟨p6, h6, he⟩ := bind_ok he
    have hnz : ¬ (p5.homeWinProbability = 0 ∧ p5.awayWinProbability = 0 ∧
        p5.drawProbability = 0) := by
      intro hz
      exact hh (by rw [← hp5h]; exact hz.1)
    rw [heuristic_1x2_skip hnz] at h6
    injection h6 with h6
    subst h6
    obtain ⟨gs, hgs, he⟩ := bind_ok he
    try dsimp only at he
    obtain ⟨p8, h8, he⟩ := bind_ok he
    obtain ⟨t1, t2, t3⟩ := heuristic_btts_1x2 h8
    obtain ⟨u1, u2, u3⟩ := heuristic_over_under_1x2 gs p5
    have hent := pure_ok he
    subst hent
    refine ⟨?_, ?_, ?_⟩
    · show p8.homeWinProbability = _
      rw [t1, u1, hp5h]
    · show p8.drawProbability = _
      rw [t2, u2, hp5d]
    · show p8.awayWinProbability = _
      rw [t3, u3, hp5a]

/-! ## Claim C3: the form heuristic 1X2 triple sums to 100 -/

set_option maxHeartbeats 1000000 in
/-- A successful `_form_strength` on a non-empty form dict yields a strength
of at least the `0.35` floor. -/
theorem form_strength_dict_ne {d : List (String × PyVal)} {r : Option ℚ}
    (hne : d.isEmpty = false) (h : form_strength (.dict d) = .ok r) :
    ∃ s, r = some s ∧ (0.35 : ℚ) ≤ s := by
  unfold form_strength at h
  dsimp only at h
  split at h
  · rename_i hemp
    rw [hemp] at hne
    exact Bool.noConfusion hne
  · repeat'
      first
      | (obtain ⟨_, _, h⟩ := bind_ok h)
      | (split at h)
      | (dsimp only at h)
    all_goals
      have := pure_ok h
      exact ⟨_, this.symm, le_max_left _ _⟩

/-- A successful `_estimate_draw_component` is clamped into `[0.5, 1.8]`. -/
theorem estimate_draw_component_bounds {hf af : PyVal} {dc : ℚ}
    (h : estimate_draw_component hf af = .ok dc) :
    (0.5 : ℚ) ≤ dc ∧ dc ≤ (1.8 : ℚ) := by
  unfold estimate_draw_component at h
  obtain ⟨_, _, h⟩ := bind_ok h
  obtain ⟨_, _, h⟩ := bind_ok h
  dsimp only at h
  have := pure_ok h
  subst this
  constructor
  · exact le_max_left _ _
  · exact max_le (by norm_num) (min_le_right _ _)

/-- When the 1X2 triple is all zero and both sides have a non-empty form
dict, the heuristic fills the triple with percentages summing to 100. -/
theorem heuristic_1x2_sum {hf af : PyVal} {dh da : List (String × PyVal)}
    {p r : Predictions}
    (hhf : hf = .dict dh) (hdh : dh.isEmpty = false)
    (haf : af = .dict da) (hda : da.isEmpty = false)
    (hz : p.homeWinProbability = 0 ∧ p.awayWinProbability = 0 ∧
          p.drawProbability = 0)
    (h : heuristic_1x2 hf af p = .ok r) :
    r.homeWinProbability + r.drawProbability + r.awayWinProbability = 100 := by
  unfold heuristic_1x2 at h
  rw [if_pos hz] at h
  obtain ⟨rs1, hfs1, h⟩ := bind_ok h
  obtain ⟨rs2, hfs2, h⟩ := bind_ok h
  subst hhf haf
  obtain ⟨s1, rfl, hb1⟩ := form_strength_dict_ne hdh hfs1
  obtain ⟨s2, rfl, hb2⟩ := form_strength_dict_ne hda hfs2
  try dsimp only at h
  have hs1ne : s1 ≠ 0 := by intro h0; rw [h0] at hb1; norm_num at hb1
  have hs2ne : s2 ≠ 0 := by intro h0; rw [h0] at hb2; norm_num at hb2
  rw [if_pos hs1ne, if_pos hs2ne] at h
  obtain ⟨dc, hdc, h⟩ := bind_ok h
  obtain ⟨hdc1, hdc2⟩ := estimate_draw_component_bounds hdc
  try dsimp only at h
  have hT : (0 : ℚ) < s1 + s2 + dc := by linarith
  rw [if_neg (not_le.mpr hT)] at h
  have := pure_ok h
  subst this
  try dsimp only
  set T : ℚ := s1 + s2 + dc with hTdef
  set homePct : ℤ := pyRound (s1 / T * 100) with hHdef
  set drawPct : ℤ := pyRound (dc / T * 100) with hDdef
  have hH0 : 0 ≤ homePct :=
    pyRound_nonneg (by positivity)
  have hD0 : 0 ≤ drawPct :=
    pyRound_nonneg (by positivity)
  have hHD : homePct + drawPct ≤ 100 := by
    have h1 : (s1 + dc) / T < 1 := (div_lt_one hT).mpr (by linarith)
    have h2 : (s1 + dc) / T * 100 < 1 * 100 :=
      mul_lt_mul_of_pos_right h1 (by norm_num)
    have h100 : s1 / T * 100 + dc / T * 100 < 100 := by
      have : s1 / T * 100 + dc / T * 100 = (s1 + dc) / T * 100 := by ring
      rw [this]
      linarith
    have hcast : ((homePct + drawPct : ℤ) : ℚ) < 101 := by
      push_cast
      have b1 := pyRound_le (s1 / T * 100)
      have b2 := pyRound_le (dc / T * 100)
      rw [← hHdef] at b1
      rw [← hDdef] at b2
      linarith
    have : homePct + drawPct < 101 := by exact_mod_cast hcast
    omega
  have hH100 : homePct ≤ 100 := by omega
  have hD100 : drawPct ≤ 100 := by omega
  have hA0 : (0 : ℤ) ≤ 100 - homePct - drawPct := by omega
  have e1 : min 100 homePct = homePct := min_eq_right hH100
  have e2 : max 0 homePct = homePct := max_eq_right hH0
  have e3 : min 100 drawPct = drawPct := min_eq_right hD100
  have e4 : max 0 drawPct = drawPct := max_eq_right hD0
  have e5 : max 0 (100 - homePct - drawPct) = 100 - homePct - drawPct :=
    max_eq_right hA0
  have e6 : min 100 (100 - homePct - drawPct) = 100 - homePct - drawPct :=
    min_eq_right (by omega)
  have e7 : max 0 (100 - homePct - drawPct) = 100 - homePct - drawPct :=
    max_eq_right (by omega)
  rw [e1, e2, e3, e4, e5, e6, e7]
  omega

/-- C3 (amended): for a match whose odds object is truthy (non-empty), whose
signal stage leaves the whole 1X2 triple at zero, and whose form data has
non-empty `home` and `away` dicts, the output 1X2 triple sums to exactly 100.
(The original claim also covered matches with an empty/absent odds list, but
those take the early `continue` and keep the all-zero triple.) -/
theorem C3_amended_heuristic_triple_sum
    (m : List (String × PyVal)) (e : Entry) (items : List PyVal)
    (p : Predictions) (fu au : Bool) (dh da : List (String × PyVal))
    (htr : truthy (odds_value m) = true)
    (hitems : pyIter (odds_value m) = .ok items)
    (hsig : signal_stage m items = .ok (p, fu, au))
    (hz : p.homeWinProbability = 0 ∧ p.awayWinProbability = 0 ∧
          p.drawProbability = 0)
    (hhf : subForm (dgetD m "form" .none) "home" = .dict dh)
    (hdh : dh.isEmpty = false)
    (haf : subForm (dgetD m "form" .none) "away" = .dict da)
    (hda : da.isEmpty = false)
    (he : analyze_one m = .ok e) :
    e.predictions.homeWinProbability + e.predictions.drawProbability +
      e.predictions.awayWinProbability = 100 := by
  unfold analyze_one at he
  dsimp only at he
  split at he
  case isTrue hcond => exact absurd htr hcond
  case isFalse hcond =>
    obtain ⟨items', hitems', he⟩ := bind_ok he
    have hsame : items' = items := by
      have h0 := hitems
      unfold odds_value at h0
      rw [hitems'] at h0
      injection h0 with h0
    subst hsame
    obtain ⟨psig, hsig', he⟩ := bind_ok he
    rw [hsig] at hsig'
    injection hsig' with h3
    subst h3
    dsimp only at he
    obtain ⟨rc, hrec, he⟩ := bind_ok he
    rcases rc with ⟨recs, cs⟩
    dsimp only at he
    obtain ⟨nb, hnotes, he⟩ := bind_ok he
    rcases nb with ⟨notes, boost⟩
    dsimp only at he
    obtain ⟨p6, h6, he⟩ := bind_ok he
    have hsum := heuristic_1x2_sum hhf hdh haf hda hz h6
    obtain ⟨gs, hgs, he⟩ := bind_ok he
    try dsimp only at he
    obtain ⟨p8, h8, he⟩ := bind_ok he
    obtain ⟨t1, t2, t3⟩ := heuristic_btts_1x2 h8
    obtain ⟨u1, u2, u3⟩ := heuristic_over_under_1x2 gs p6
    have hent := pure_ok he
    subst hent
    show p8.homeWinProbability + p8.drawProbability + p8.awayWinProbability = 100
    rw [t1, t2, t3, u1, u2, u3]
    exact hsum

/-! ## Claim C4: probability fields stay in [0, 100] -/

/-- All seven probability fields are integers in `[0, 100]`. -/
def PredIn (p : Predictions) : Prop :=
  0 ≤ p.homeWinProbability ∧ p.homeWinProbability ≤ 100 ∧
  0 ≤ p.drawProbability ∧ p.drawProbability ≤ 100 ∧
  0 ≤ p.awayWinProbability ∧ p.awayWinProbability ≤ 100 ∧
  0 ≤ p.over25Probability ∧ p.over25Probability ≤ 100 ∧
  0 ≤ p.under25Probability ∧ p.under25Probability ≤ 100 ∧
  0 ≤ p.bttsYesProbability ∧ p.bttsYesProbability ≤ 100 ∧
  0 ≤ p.bttsNoProbability ∧ p.bttsNoProbability ≤ 100

instance (p : Predictions) : Decidable (PredIn p) := by
  unfold PredIn
  infer_instance

theorem clamp_lb (x : ℤ) : 0 ≤ max 0 (min 100 x) := le_max_left _ _

theorem clamp_ub (x : ℤ) : max 0 (min 100 x) ≤ 100 :=
  max_le (by norm_num) (min_le_left _ _)

/-- An odds entry whose price parses must parse to a decimal price ≥ 1
(prices below 1 are the pathology behind the original claim's failure). -/
def price_ge_one (v : PyVal) : Bool :=
  match v with
  | .dict d =>
    match normalize_odd_value (dgetD d "odd" .none) with
    | some pv => decide (1 ≤ pv)
    | Option.none => true
  | _ => true

/-- Every outcome entry of every recognized market has a parsed price ≥ 1. -/
def market_prices_ok (items : List PyVal) : Bool :=
  (buildMarketLookup items).all fun kv => kv.2.all price_ge_one

theorem calculate_probability_nonneg (odd : PyVal) :
    0 ≤ calculate_probability odd := by
  unfold calculate_probability
  split
  · norm_num
  · rename_i v hv
    split
    · norm_num
    · rename_i hle
      have hpos : 0 < v := normalize_odd_value_pos hv
      exact pyRound_nonneg (by positivity)

theorem calculate_probability_le_100 {d : List (String × PyVal)}
    (h : price_ge_one (.dict d) = true) :
    calculate_probability (dgetD d "odd" .none) ≤ 100 := by
  unfold price_ge_one at h
  dsimp only at h
  unfold calculate_probability
  split
  · norm_num
  · rename_i v hv
    split
    · norm_num
    · rename_i hle
      rw [hv] at h
      have h1 : (1 : ℚ) ≤ v := by
        simpa using h
      have hpos : (0 : ℚ) < v := by linarith
      refine pyRound_le_int ?_
      have : 1 / v ≤ 1 := by
        rw [div_le_one hpos]
        exact h1
      push_cast
      nlinarith

theorem assocFind_mem {α : Type} {l : List (String × α)} {k : String} {v : α}
    (h : assocFind l k = some v) : (k, v) ∈ l := by
  induction l with
  | nil => cases h
  | cons kv rest ih =>
    rcases kv with ⟨k', v'⟩
    unfold assocFind at h
    split at h
    · rename_i heq
      cases h
      subst heq
      exact List.mem_cons_self _ _
    · exact List.mem_cons_of_mem _ (ih h)

theorem apply_match_winner_bounds {mw : List PyVal} {p q : Predictions}
    (hall : ∀ v ∈ mw, price_ge_one v = true) (hp : PredIn p)
    (h : apply_match_winner mw p = .ok q) : PredIn q := by
  induction mw generalizing p with
  | nil =>
    have := pure_ok (by simpa [apply_match_winner] using h)
    subst this
    exact hp
  | cons v vs ih =>
    rw [apply_match_winner, List.foldlM_cons] at h
    obtain ⟨p₁, hstep, hrest⟩ := bind_ok h
    have hrest' : apply_match_winner vs p₁ = .ok q := hrest
    obtain ⟨lv, hlv, hstep⟩ := bind_ok hstep
    obtain ⟨ov, hov, hstep⟩ := bind_ok hstep
    obtain ⟨d, rfl, rfl⟩ := pyGetD_ok hlv
    obtain ⟨d', hd', rfl⟩ := pyGetD_ok hov
    simp only [PyVal.dict.injEq] at hd'
    subst hd'
    have hpr := hall _ (List.mem_cons_self _ _)
    have hrestall : ∀ w ∈ vs, price_ge_one w = true := fun w hw =>
      hall w (List.mem_cons_of_mem _ hw)
    refine ih hrestall ?_ hrest'
    obtain ⟨c1, c2, c3, c4, c5, c6, c7, c8, c9, c10, c11, c12, c13, c14⟩ := hp
    have hnn := calculate_probability_nonneg (dgetD d "odd" .none)
    have hub := calculate_probability_le_100 hpr
    split at hstep <;> [skip; split at hstep] <;> [skip; skip; split at hstep] <;>
      (have hq := pure_ok hstep; subst hq;
       exact ⟨by assumption, by assumption, by assumption, by assumption,
              by assumption, by assumption, by assumption, by assumption,
              by assumption, by assumption, by assumption, by assumption,
              by assumption, by assumption⟩)

theorem apply_over_under_bounds {vs : List PyVal} {p q : Predictions}
    (hall : ∀ v ∈ vs, price_ge_one v = true) (hp : PredIn p)
    (h : apply_over_under vs p = .ok q) : PredIn q := by
  induction vs generalizing p with
  | nil =>
    have := pure_ok (by simpa [apply_over_under] using h)
    subst this
    exact hp
  | cons v vs ih =>
    rw [apply_over_under, List.foldlM_cons] at h
    obtain ⟨p₁, hstep, hrest⟩ := bind_ok h
    have hrest' : apply_over_under vs p₁ = .ok q := hrest
    obtain ⟨lv, hlv, hstep⟩ := bind_ok hstep
    obtain ⟨ov, hov, hstep⟩ := bind_ok hstep
    obtain ⟨d, rfl, rfl⟩ := pyGetD_ok hlv
    obtain ⟨d', hd', rfl⟩ := pyGetD_ok hov
    simp only [PyVal.dict.injEq] at hd'
    subst hd'
    have hpr := hall _ (List.mem_cons_self _ _)
    have hrestall : ∀ w ∈ vs, price_ge_one w = true := fun w hw =>
      hall w (List.mem_cons_of_mem _ hw)
    refine ih hrestall ?_ hrest'
    obtain ⟨c1, c2, c3, c4, c5, c6, c7, c8, c9, c10, c11, c12, c13, c14⟩ := hp
    have hnn := calculate_probability_nonneg (dgetD d "odd" .none)
    have hub := calculate_probability_le_100 hpr
    split at hstep <;> [skip; split at hstep] <;>
      (have hq := pure_ok hstep; subst hq;
       exact ⟨by assumption, by assumption, by assumption, by assumption,
              by assumption, by assumption, by assumption, by assumption,
              by assumption, by assumption, by assumption, by assumption,
              by assumption, by assumption⟩)

theorem apply_btts_bounds {vs : List PyVal} {p q : Predictions}
    (hall : ∀ v ∈ vs, price_ge_one v = true) (hp : PredIn p)
    (h : apply_btts vs p = .ok q) : PredIn q := by
  induction vs generalizing p with
  | nil =>
    have := pure_ok (by simpa [apply_btts] using h)
    subst this
    exact hp
  | cons v vs ih =>
    rw [apply_btts, List.foldlM_cons] at h
    obtain ⟨p₁, hstep, hrest⟩ := bind_ok h
    have hrest' : apply_btts vs p₁ = .ok q := hrest
    obtain ⟨lv, hlv, hstep⟩ := bind_ok hstep
    obtain ⟨ov, hov, hstep⟩ := bind_ok hstep
    obtain ⟨d, rfl, rfl⟩ := pyGetD_ok hlv
    obtain ⟨d', hd', rfl⟩ := pyGetD_ok hov
    simp only [PyVal.dict.injEq] at hd'
    subst hd'
    have hpr := hall _ (List.mem_cons_self _ _)
    have hrestall : ∀ w ∈ vs, price_ge_one w = true := fun w hw =>
      hall w (List.mem_cons_of_mem _ hw)
    refine ih hrestall ?_ hrest'
    obtain ⟨c1, c2, c3, c4, c5, c6, c7, c8, c9, c10, c11, c12, c13, c14⟩ := hp
    have hnn := calculate_probability_nonneg (dgetD d "odd" .none)
    have hub := calculate_probability_le_100 hpr
    split at hstep <;> [skip; split at hstep] <;>
      (have hq := pure_ok hstep; subst hq;
       exact ⟨by assumption, by assumption, by assumption, by assumption,
              by assumption, by assumption, by assumption, by assumption,
              by assumption, by assumption, by assumption, by assumption,
              by assumption, by assumption⟩)

theorem apply_percent_field_bounds {src : List (String × PyVal)} {key : String}
    {cur : ℤ} (h0 : 0 ≤ cur) (h100 : cur ≤ 100) :
    0 ≤ (apply_percent_field src key cur).1 ∧
    (apply_percent_field src key cur).1 ≤ 100 := by
  unfold apply_percent_field
  split
  · exact ⟨h0, h100⟩
  · split
    · exact ⟨h0, h100⟩
    · dsimp only
      split
      · exact ⟨clamp_lb _, clamp_ub _⟩
      · exact ⟨h0, h100⟩

theorem apply_forebet_bounds {fb : PyVal} {p : Predictions} (hp : PredIn p) :
    PredIn (apply_forebet fb p).1 := by
  obtain ⟨c1, c2, c3, c4, c5, c6, c7, c8, c9, c10, c11, c12, c13, c14⟩ := hp
  cases fb with
  | dict d =>
    unfold apply_forebet
    dsimp only
    exact ⟨(apply_percent_field_bounds c1 c2).1, (apply_percent_field_bounds c1 c2).2,
           (apply_percent_field_bounds c3 c4).1, (apply_percent_field_bounds c3 c4).2,
           (apply_percent_field_bounds c5 c6).1, (apply_percent_field_bounds c5 c6).2,
           (apply_percent_field_bounds c7 c8).1, (apply_percent_field_bounds c7 c8).2,
           (apply_percent_field_bounds c9 c10).1, (apply_percent_field_bounds c9 c10).2,
           (apply_percent_field_bounds c11 c12).1, (apply_percent_field_bounds c11 c12).2,
           (apply_percent_field_bounds c13 c14).1, (apply_percent_field_bounds c13 c14).2⟩
  | none => exact ⟨c1, c2, c3, c4, c5, c6, c7, c8, c9, c10, c11, c12, c13, c14⟩
  | bool b => exact ⟨c1, c2, c3, c4, c5, c6, c7, c8, c9, c10, c11, c12, c13, c14⟩
  | int n => exact ⟨c1, c2, c3, c4, c5, c6, c7, c8, c9, c10, c11, c12, c13, c14⟩
  | float q => exact ⟨c1, c2, c3, c4, c5, c6, c7, c8, c9, c10, c11, c12, c13, c14⟩
  | str s => exact ⟨c1, c2, c3, c4, c5, c6, c7, c8, c9, c10, c11, c12, c13, c14⟩
  | list xs => exact ⟨c1, c2, c3, c4, c5, c6, c7, c8, c9, c10, c11, c12, c13, c14⟩

theorem api_predicted_goals_bounds (ap : List (String × PyVal))
    {p : Predictions} (hp : PredIn p) : PredIn (api_predicted_goals ap p) := by
  obtain ⟨c1, c2, c3, c4, c5, c6, c7, c8, c9, c10, c11, c12, c13, c14⟩ := hp
  unfold api_predicted_goals
  split
  · dsimp only
    split
    · exact ⟨c1, c2, c3, c4, c5, c6, c7, c8, c9, c10, c11, c12, c13, c14⟩
    · split
      · refine ⟨c1, c2, c3, c4, c5, c6, ?_, ?_, c9, c10, c11, c12, c13, c14⟩
        · exact le_trans (by norm_num) (le_max_left 60 _)
        · exact max_le (by norm_num) (le_trans (min_le_left _ _) (by norm_num))
      · split
        · refine ⟨c1, c2, c3, c4, c5, c6, c7, c8, ?_, ?_, c11, c12, c13, c14⟩
          · exact le_trans (by norm_num) (le_max_left 60 _)
          · exact max_le (by norm_num) (le_trans (min_le_left _ _) (by norm_num))
        · exact ⟨c1, c2, c3, c4, c5, c6, c7, c8, c9, c10, c11, c12, c13, c14⟩
  · exact ⟨c1, c2, c3, c4, c5, c6, c7, c8, c9, c10, c11, c12, c13, c14⟩

theorem api_under_over_hint_bounds (ap : List (String × PyVal))
    {p : Predictions} (hp : PredIn p) : PredIn (api_under_over_hint ap p) := by
  obtain ⟨c1, c2, c3, c4, c5, c6, c7, c8, c9, c10, c11, c12, c13, c14⟩ := hp
  unfold api_under_over_hint
  dsimp only
  split
  · split
    · exact ⟨c1, c2, c3, c4, c5, c6, by norm_num, by norm_num, c9, c10, c11,
             c12, c13, c14⟩
    · split
      · exact ⟨c1, c2, c3, c4, c5, c6, c7, c8, by norm_num, by norm_num, c11,
               c12, c13, c14⟩
      · exact ⟨c1, c2, c3, c4, c5, c6, c7, c8, c9, c10, c11, c12, c13, c14⟩
  · exact ⟨c1, c2, c3, c4, c5, c6, c7, c8, c9, c10, c11, c12, c13, c14⟩

theorem apply_api_prediction_bounds {ap : PyVal} {p : Predictions}
    (hp : PredIn p) : PredIn (apply_api_prediction ap p).1 := by
  cases ap with
  | dict d =>
    obtain ⟨c1, c2, c3, c4, c5, c6, c7, c8, c9, c10, c11, c12, c13, c14⟩ := hp
    unfold apply_api_prediction
    dsimp only
    refine api_under_over_hint_bounds d (api_predicted_goals_bounds d ?_)
    exact ⟨(apply_percent_field_bounds c1 c2).1, (apply_percent_field_bounds c1 c2).2,
           (apply_percent_field_bounds c3 c4).1, (apply_percent_field_bounds c3 c4).2,
           (apply_percent_field_bounds c5 c6).1, (apply_percent_field_bounds c5 c6).2,
           c7, c8, c9, c10, c11, c12, c13, c14⟩
  | none => exact hp
  | bool b => exact hp
  | int n => exact hp
  | float q => exact hp
  | str s => exact hp
  | list xs => exact hp

theorem heuristic_1x2_bounds {hf af : PyVal} {p q : Predictions}
    (hp : PredIn p) (h : heuristic_1x2 hf af p = .ok q) : PredIn q := by
  obtain ⟨c1, c2, c3, c4, c5, c6, c7, c8, c9, c10, c11, c12, c13, c14⟩ := hp
  unfold heuristic_1x2 at h
  split at h
  · obtain ⟨rs1, hfs1, h⟩ := bind_ok h
    obtain ⟨rs2, hfs2, h⟩ := bind_ok h
    repeat'
      first
      | (obtain ⟨_, _, h⟩ := bind_ok h)
      | (split at h)
      | (dsimp only at h)
    all_goals
      have := pure_ok h
      subst this
      refine ⟨?_, ?_, ?_, ?_, ?_, ?_, ?_, ?_, ?_, ?_, ?_, ?_, ?_, ?_⟩ <;>
        first
          | assumption
          | exact clamp_lb _
          | exact clamp_ub _
          | norm_num
  · have := pure_ok h
    subst this
    exact ⟨c1, c2, c3, c4, c5, c6, c7, c8, c9, c10, c11, c12, c13, c14⟩

theorem heuristic_over_under_bounds (gs : List ℚ) {p : Predictions}
    (hp : PredIn p) : PredIn (heuristic_over_under gs p) := by
  obtain ⟨c1, c2, c3, c4, c5, c6, c7, c8, c9, c10, c11, c12, c13, c14⟩ := hp
  unfold heuristic_over_under
  split
  case isTrue hcond =>
    dsimp only
    split
    case isTrue hb =>
      refine ⟨c1, c2, c3, c4, c5, c6, ?_, ?_, clamp_lb _, clamp_ub _, c11, c12,
              c13, c14⟩
      · refine le_min (by norm_num) (pyRound_nonneg ?_)
        have : (0 : ℚ) ≤ (qMean gs - 3.2) * 12 :=
          mul_nonneg (by linarith) (by norm_num)
        linarith
      · exact le_trans (min_le_left _ _) (by norm_num)
    case isFalse hb =>
      split
      case isTrue hb2 =>
        have hu0 : (0 : ℤ) ≤ min 80 (pyRound (64 + (1.8 - qMean gs) * 18)) := by
          refine le_min (by norm_num) (pyRound_nonneg ?_)
          have : (0 : ℚ) ≤ (1.8 - qMean gs) * 18 :=
            mul_nonneg (by linarith) (by norm_num)
          linarith
        refine ⟨c1, c2, c3, c4, c5, c6, ?_, ?_, clamp_lb _, clamp_ub _, c11, c12,
                c13, c14⟩
        · exact le_trans (by norm_num) (le_max_right _ 18)
        · exact max_le (by omega) (by norm_num)
      case isFalse hb2 =>
        refine ⟨c1, c2, c3, c4, c5, c6, ?_, ?_, clamp_lb _, clamp_ub _, c11, c12,
                c13, c14⟩
        · exact le_trans (by norm_num) (le_max_left 40 _)
        · exact max_le (by norm_num) (le_trans (min_le_left _ _) (by norm_num))
  case isFalse =>
    exact ⟨c1, c2, c3, c4, c5, c6, c7, c8, c9, c10, c11, c12, c13, c14⟩

set_option maxHeartbeats 1000000 in
theorem heuristic_btts_bounds {hf af : PyVal} {gs : List ℚ} {p q : Predictions}
    (hp : PredIn p) (h : heuristic_btts hf af gs p = .ok q) : PredIn q := by
  obtain ⟨c1, c2, c3, c4, c5, c6, c7, c8, c9, c10, c11, c12, c13, c14⟩ := hp
  unfold heuristic_btts at h
  split at h
  · obtain ⟨a1, h1, h⟩ := bind_ok h
    obtain ⟨a2, h2, h⟩ := bind_ok h
    dsimp only at h
    repeat' split at h
    all_goals
      have := pure_ok h
      subst this
      refine ⟨?_, ?_, ?_, ?_, ?_, ?_, ?_, ?_, ?_, ?_, ?_, ?_, ?_, ?_⟩ <;>
        first
          | assumption
          | exact clamp_lb _
          | exact clamp_ub _
          | exact le_trans (by norm_num) (le_max_left 35 _)
          | exact max_le (by norm_num) (le_trans (min_le_left _ _) (by norm_num))
  · have := pure_ok h
    subst this
    exact ⟨c1, c2, c3, c4, c5, c6, c7, c8, c9, c10, c11, c12, c13, c14⟩

/-- C4 (amended): every probability field of an analyzed entry is an integer
in `[0, 100]` provided every parsed market price is at least 1 (true decimal
odds).  The original claim, which allowed any positive price, fails: a price
in `(0, 1)` yields an implied probability above 100 (see the counterexample). -/
theorem C4_amended_fields_in_range (m : List (String × PyVal)) (e : Entry)
    (items : List PyVal)
    (hitems : pyIter (odds_value m) = .ok items)
    (hprices : market_prices_ok items = true)
    (he : analyze_one m = .ok e) : PredIn e.predictions := by
  unfold analyze_one at he
  dsimp only at he
  split at he
  case isTrue hcond =>
    have := pure_ok he
    subst this
    refine ⟨?_, ?_, ?_, ?_, ?_, ?_, ?_, ?_, ?_, ?_, ?_, ?_, ?_, ?_⟩ <;>
      simp [Predictions.start]
  case isFalse hcond =>
    obtain ⟨items', hitems', he⟩ := bind_ok he
    have hsame : items' = items := by
      have h0 := hitems
      unfold odds_value at h0
      rw [hitems'] at h0
      injection h0 with h0
    subst hsame
    obtain ⟨psig, hsig', he⟩ := bind_ok he
    -- bounds through the signal stage
    unfold signal_stage at hsig'
    dsimp only at hsig'
    obtain ⟨p1, h1, hsig'⟩ := bind_ok hsig'
    obtain ⟨p2, h2, hsig'⟩ := bind_ok hsig'
    obtain ⟨p3, h3, hsig'⟩ := bind_ok hsig'
    have hallprices : ∀ name vals, assocFind (buildMarketLookup items') name = some vals →
        ∀ v ∈ vals, price_ge_one v = true := by
      intro name vals hfind v hv
      have hmem := assocFind_mem hfind
      have := List.all_eq_true.mp hprices _ hmem
      exact List.all_eq_true.mp this v hv
    have hget : ∀ name, ∀ v ∈ (assocFind (buildMarketLookup items') name).getD [],
        price_ge_one v = true := by
      intro name v hv
      cases hfind : assocFind (buildMarketLookup items') name with
      | some vals =>
        rw [hfind] at hv
        exact hallprices name vals hfind v hv
      | none =>
        rw [hfind] at hv
        cases hv
    have hstart : PredIn Predictions.start := by
      refine ⟨?_, ?_, ?_, ?_, ?_, ?_, ?_, ?_, ?_, ?_, ?_, ?_, ?_, ?_⟩ <;>
        simp [Predictions.start]
    have hp1 := apply_match_winner_bounds (hget "match_winner") hstart h1
    have hp2 := apply_over_under_bounds (hget "goals_over_under") hp1 h2
    have hp3 := apply_btts_bounds (hget "both_teams_score") hp2 h3
    rcases hfb : apply_forebet (dgetD m "forebet" .none) p3 with ⟨pf, uf⟩
    have hpf : PredIn pf := by
      have := @apply_forebet_bounds (dgetD m "forebet" .none) p3 hp3
      rw [hfb] at this
      exact this
    rcases hap : apply_api_prediction (dgetD m "apiFootballPrediction" .none) pf
      with ⟨pa, ua⟩
    have hpa : PredIn pa := by
      have := @apply_api_prediction_bounds
        (dgetD m "apiFootballPrediction" .none) pf hpf
      rw [hap] at this
      exact this
    rw [hfb] at hsig'
    dsimp only at hsig'
    rw [hap] at hsig'
    dsimp only at hsig'
    have htup := pure_ok hsig'
    subst htup
    dsimp only at he
    obtain ⟨rc, hrec, he⟩ := bind_ok he
    rcases rc with ⟨recs, cs⟩
    dsimp only at he
    obtain ⟨nb, hnotes, he⟩ := bind_ok he
    rcases nb with ⟨notes, boost⟩
    dsimp only at he
    obtain ⟨p6, h6, he⟩ := bind_ok he
    have hp6 := heuristic_1x2_bounds hpa h6
    obtain ⟨gs, hgs, he⟩ := bind_ok he
    try dsimp only at he
    obtain ⟨p8, h8, he⟩ := bind_ok he
    have hp7 := heuristic_over_under_bounds gs hp6
    have hp8 := heuristic_btts_bounds hp7 h8
    have hent := pure_ok he
    subst hent
    exact hp8

/-! ## Claim C7: the global ranking -/

theorem insert_desc_perm (a : Entry) (l : List Entry) :
    (insert_desc a l).Perm (a :: l) := by
  induction l with
  | nil => exact List.Perm.refl _
  | cons b t ih =>
    rw [insert_desc]
    split
    · exact List.Perm.refl _
    · exact (List.Perm.cons b ih).trans (List.Perm.swap a b t)

theorem sort_desc_perm (l : List Entry) : (sort_desc l).Perm l := by
  induction l with
  | nil => exact List.Perm.refl _
  | cons a t ih =>
    exact (insert_desc_perm a (sort_desc t)).trans (List.Perm.cons a ih)

theorem insert_desc_mem {y a : Entry} {l : List Entry}
    (h : y ∈ insert_desc a l) : y = a ∨ y ∈ l := by
  have := (insert_desc_perm a l).mem_iff.mp h
  simpa using this

theorem insert_desc_pairwise {a : Entry} {l : List Entry}
    (h : l.Pairwise (fun x y => score y ≤ score x)) :
    (insert_desc a l).Pairwise (fun x y => score y ≤ score x) := by
  induction l with
  | nil => simp [insert_desc]
  | cons b t ih =>
    rw [List.pairwise_cons] at h
    obtain ⟨hb, ht⟩ := h
    rw [insert_desc]
    split
    case isTrue hle =>
      refine List.Pairwise.cons ?_ (List.Pairwise.cons hb ht)
      intro y hy
      rcases List.mem_cons.mp hy with rfl | hy
      · exact hle
      · exact le_trans (hb y hy) hle
    case isFalse hgt =>
      refine List.Pairwise.cons ?_ (ih ht)
      intro y hy
      rcases insert_desc_mem hy with rfl | hy
      · exact le_of_lt (lt_of_not_le hgt)
      · exact hb y hy

theorem sort_desc_pairwise (l : List Entry) :
    (sort_desc l).Pairwise (fun x y => score y ≤ score x) := by
  induction l with
  | nil => simp [sort_desc]
  | cons a t ih => exact insert_desc_pairwise ih

theorem insert_desc_filter_ne {a : Entry} {k : ℤ} (l : List Entry)
    (hne : score a ≠ k) :
    (insert_desc a l).filter (fun e => score e == k) =
      l.filter (fun e => score e == k) := by
  induction l with
  | nil => simp [insert_desc, hne]
  | cons b t ih =>
    rw [insert_desc]
    split
    · simp [List.filter_cons, hne]
    · simp only [List.filter_cons]
      rw [ih]

theorem insert_desc_filter_eq {a : Entry} {k : ℤ} {l : List Entry}
    (heq : score a = k)
    (hs : l.Pairwise (fun x y => score y ≤ score x)) :
    (insert_desc a l).filter (fun e => score e == k) =
      a :: l.filter (fun e => score e == k) := by
  induction l with
  | nil => simp [insert_desc, heq]
  | cons b t ih =>
    rw [List.pairwise_cons] at hs
    obtain ⟨hb, ht⟩ := hs
    rw [insert_desc]
    split
    case isTrue hle => simp [List.filter_cons, heq]
    case isFalse hgt =>
      have hblt : score a < score b := lt_of_not_le hgt
      have hbne : (score b == k) = false := by
        simp only [beq_eq_false_iff_ne, ne_eq]
        omega
      simp only [List.filter_cons, hbne, Bool.false_eq_true, if_false]
      exact ih ht

theorem sort_desc_stable (l : List Entry) (k : ℤ) :
    (sort_desc l).filter (fun e => score e == k) =
      l.filter (fun e => score e == k) := by
  induction l with
  | nil => rfl
  | cons a t ih =>
    show (insert_desc a (sort_desc t)).filter _ = _
    by_cases hk : score a = k
    · rw [insert_desc_filter_eq hk (sort_desc_pairwise t), ih]
      simp [List.filter_cons, hk]
    · rw [insert_desc_filter_ne _ hk, ih]
      simp [List.filter_cons, hk]

/-- C7: the ranked list `allMatches` is sorted in descending order of the key
`confidenceRank*1000 + recommendationCount*10 + max(home,draw,away)` with the
stated `confidenceRank` mapping; the sort is stable (equal-key entries keep
their input order, stated as filter-invariance per key); `bestMatches` is the
top-10 slice; and the high/medium counts count the entries at those tiers. -/
theorem C7_ranking (matchList : List (List (String × PyVal)))
    (idx : CompetitionIndex) (analyzed : List Entry) (out : AnalysisResult)
    (hana : matchList.mapM analyze_one = .ok analyzed)
    (hout : analyze_matches matchList idx = .ok out) :
    out.allMatches.Pairwise (fun a b => score b ≤ score a) ∧
    out.allMatches.Perm analyzed ∧
    (∀ k : ℤ, out.allMatches.filter (fun e => score e == k) =
      analyzed.filter (fun e => score e == k)) ∧
    out.bestMatches = out.allMatches.take 10 ∧
    out.highConfidenceCount =
      (out.allMatches.filter fun e => e.confidence = "high").length ∧
    out.mediumConfidenceCount =
      (out.allMatches.filter fun e => e.confidence = "medium").length ∧
    (∀ e : Entry, score e = confidence_rank e.confidence * 1000 +
      (e.recommendedBets.length : ℤ) * 10 +
      max e.predictions.homeWinProbability
        (max e.predictions.drawProbability e.predictions.awayWinProbability)) ∧
    confidence_rank "high" = 3 ∧ confidence_rank "medium" = 2 ∧
    confidence_rank "low" = 1 ∧
    (∀ s : String, s ≠ "high" → s ≠ "medium" → s ≠ "low" →
      confidence_rank s = 0) := by
  unfold analyze_matches at hout
  obtain ⟨analyzed', h1, hout⟩ := bind_ok hout
  rw [hana] at h1
  injection h1 with h1
  subst h1
  dsimp only at hout
  obtain ⟨buckets, h2, hout⟩ := bind_ok hout
  have := pure_ok hout
  subst this
  refine ⟨sort_desc_pairwise _, sort_desc_perm _, sort_desc_stable _, rfl, rfl,
          rfl, fun e => rfl, rfl, rfl, rfl, ?_⟩
  intro s h1 h2 h3
  simp [confidence_rank, h1, h2, h3]

/-! ## Claim C8: region breakdown totals -/

/-- Does an analyzed entry land in a region bucket that the breakdown
reports: its stored region is a string and a declared region key? -/
def region_counted (ro : List String) (e : Entry) : Bool :=
  match entry_region e with
  | .ok (.str r) => decide (r ∈ ro)
  | _ => false

/-- The `total` of a region as the breakdown computes it. -/
def bucket_total (b : List (String × List Entry)) (r : String) : ℕ :=
  ((assocFind b r).getD []).length

theorem assocFind_append_some {α : Type} {b : List (String × α)} {r : String}
    {v : α} (l : List (String × α)) (h : assocFind b r = some v) :
    assocFind (b ++ l) r = some v := by
  induction b with
  | nil => cases h
  | cons kv rest ih =>
    rcases kv with ⟨k', v'⟩
    rw [List.cons_append]
    unfold assocFind at h ⊢
    split at h
    · rename_i heq
      rw [if_pos heq]
      exact h
    · rename_i hne
      rw [if_neg hne]
      exact ih h

theorem assocFind_append_none {α : Type} {b : List (String × α)} {r : String}
    (l : List (String × α)) (h : assocFind b r = Option.none) :
    assocFind (b ++ l) r = assocFind l r := by
  induction b with
  | nil => rfl
  | cons kv rest ih =>
    rcases kv with ⟨k', v'⟩
    rw [List.cons_append]
    simp only [assocFind] at h ⊢
    split at h
    · cases h
    · rename_i hne
      rw [if_neg hne]
      exact ih h

theorem assocFind_assocSet_self {α : Type} (b : List (String × α)) (r : String)
    (v : α) : assocFind (assocSet b r v) r = some v := by
  induction b with
  | nil => simp [assocSet, assocFind]
  | cons kv rest ih =>
    rcases kv with ⟨k', v'⟩
    unfold assocSet
    split
    · simp [assocFind]
    · rename_i hne
      unfold assocFind
      rw [if_neg hne]
      exact ih

theorem assocFind_assocSet_ne {α : Type} (b : List (String × α)) {r k : String}
    (hne : k ≠ r) (v : α) : assocFind (assocSet b r v) k = assocFind b k := by
  induction b with
  | nil =>
    simp only [assocSet, assocFind]
    rw [if_neg (fun h => hne h.symm)]
  | cons kv rest ih =>
    rcases kv with ⟨k', v'⟩
    unfold assocSet
    split
    · rename_i heq
      subst heq
      unfold assocFind
      rw [if_neg (fun h => hne h.symm), if_neg (fun h => hne h.symm)]
    · unfold assocFind
      split
      · rfl
      · exact ih

theorem init_buckets_vals_aux (ro : List String)
    (acc : List (String × List Entry))
    (hacc : ∀ kv ∈ acc, kv.2 = ([] : List Entry)) :
    ∀ kv ∈ ro.foldl ib_step acc, kv.2 = ([] : List Entry) := by
  induction ro generalizing acc with
  | nil => exact hacc
  | cons a t ih =>
    rw [List.foldl_cons]
    refine ih (ib_step acc a) ?_
    unfold ib_step
    split
    · exact hacc
    · intro kv hkv
      rcases List.mem_append.mp hkv with h | h
      · exact hacc kv h
      · rcases List.mem_singleton.mp h with rfl
        rfl

theorem init_buckets_presence_aux (ro : List String)
    (acc : List (String × List Entry)) {r : String}
    (h : r ∈ ro ∨ (assocFind acc r).isSome) :
    (assocFind (ro.foldl ib_step acc) r).isSome := by
  induction ro generalizing acc with
  | nil =>
    rcases h with h | h
    · cases h
    · exact h
  | cons a t ih =>
    rw [List.foldl_cons]
    have hstep : (assocFind acc r).isSome →
        (assocFind (ib_step acc a) r).isSome := by
      intro hs
      unfold ib_step
      split
      · exact hs
      · rcases Option.isSome_iff_exists.mp hs with ⟨v, hv⟩
        rw [assocFind_append_some _ hv]
        rfl
    rcases h with h | h
    · rcases List.mem_cons.mp h with rfl | hmem
      · refine ih _ (Or.inr ?_)
        unfold ib_step
        split
        · rename_i v hv
          rw [hv]
          rfl
        · rename_i hv
          rw [assocFind_append_none _ hv]
          simp [assocFind]
      · exact ih _ (Or.inl hmem)
    · exact ih _ (Or.inr (hstep h))

theorem init_bucket_total (ro : List String) (r : String) :
    bucket_total (init_buckets ro) r = 0 := by
  unfold bucket_total
  cases hfind : assocFind (init_buckets ro) r with
  | none => rfl
  | some v =>
    have hmem := assocFind_mem hfind
    have hv : v = [] := init_buckets_vals_aux ro [] (by intro kv h; cases h) _ hmem
    simp [hv]

theorem map_sum_congr {ro : List String} {f g : String → ℕ}
    (h : ∀ r ∈ ro, f r = g r) : (ro.map f).sum = (ro.map g).sum := by
  rw [List.map_congr_left h]

theorem map_sum_update {ro : List String} {f g : String → ℕ} {r0 : String}
    (hnd : ro.Nodup) (hmem : r0 ∈ ro) (hch : g r0 = f r0 + 1)
    (hother : ∀ r, r ≠ r0 → g r = f r) :
    (ro.map g).sum = (ro.map f).sum + 1 := by
  induction ro with
  | nil => cases hmem
  | cons a t ih =>
    rw [List.nodup_cons] at hnd
    obtain ⟨ha, ht⟩ := hnd
    rcases List.mem_cons.mp hmem with rfl | hmem
    · have heq : t.map g = t.map f := by
        refine List.map_congr_left ?_
        intro r hr
        exact hother r (fun hcon => ha (hcon ▸ hr))
      simp only [List.map_cons, List.sum_cons, heq, hch]
      omega
    · have hane : a ≠ r0 := fun hcon => ha (hcon ▸ hmem)
      simp only [List.map_cons, List.sum_cons, hother a hane, ih ht hmem]
      omega

theorem build_buckets_invariant (ro : List String) (hnd : ro.Nodup)
    (l : List Entry) (acc b : List (String × List Entry))
    (hpres : ∀ r ∈ ro, (assocFind acc r).isSome)
    (h : l.foldlM bucket_step acc = .ok b) :
    (∀ r ∈ ro, (assocFind b r).isSome) ∧
    (ro.map (bucket_total b)).sum =
      (ro.map (bucket_total acc)).sum + l.countP (region_counted ro) := by
  induction l generalizing acc with
  | nil =>
    have := pure_ok h
    subst this
    exact ⟨hpres, by simp⟩
  | cons e t ih =>
    rw [List.foldlM_cons] at h
    obtain ⟨acc', hstep, hrest⟩ := bind_ok h
    unfold bucket_step at hstep
    obtain ⟨region, hreg, hstep⟩ := bind_ok hstep
    have hcount : List.countP (region_counted ro) (e :: t) =
        List.countP (region_counted ro) t +
          (if region_counted ro e then 1 else 0) := by
      rw [List.countP_cons]
    split at hstep
    case h_1 r =>
      have hacc' : acc' = add_bucket acc r e := (pure_ok hstep).symm
      have hrcount : region_counted ro e = decide (r ∈ ro) := by
        unfold region_counted
        rw [hreg]
      by_cases hrin : r ∈ ro
      · rcases Option.isSome_iff_exists.mp (hpres r hrin) with ⟨l0, hl0⟩
        have hacc'2 : acc' = assocSet acc r (l0 ++ [e]) := by
          rw [hacc']
          unfold add_bucket
          rw [hl0]
        have hpres' : ∀ r' ∈ ro, (assocFind acc' r').isSome := by
          intro r' hr'
          rw [hacc'2]
          by_cases hrr : r' = r
          · subst hrr
            rw [assocFind_assocSet_self]
            rfl
          · rw [assocFind_assocSet_ne _ hrr]
            exact hpres r' hr'
        obtain ⟨hp, hsum⟩ := ih acc' hpres' hrest
        refine ⟨hp, ?_⟩
        have hupd : (ro.map (bucket_total acc')).sum =
            (ro.map (bucket_total acc)).sum + 1 := by
          refine map_sum_update hnd hrin ?_ ?_
          · unfold bucket_total
            rw [hacc'2, assocFind_assocSet_self, hl0]
            simp
          · intro r' hrr
            unfold bucket_total
            rw [hacc'2, assocFind_assocSet_ne _ hrr]
        rw [hsum, hupd, hcount, hrcount]
        simp [hrin]
        omega
      · have hpres' : ∀ r' ∈ ro, (assocFind acc' r').isSome := by
          intro r' hr'
          rw [hacc']
          unfold add_bucket
          have hrr : r' ≠ r := fun hcon => hrin (hcon ▸ hr')
          split
          · rw [assocFind_assocSet_ne _ hrr]
            exact hpres r' hr'
          · rcases Option.isSome_iff_exists.mp (hpres r' hr') with ⟨v, hv⟩
            rw [assocFind_append_some _ hv]
            rfl
        obtain ⟨hp, hsum⟩ := ih acc' hpres' hrest
        refine ⟨hp, ?_⟩
        have hsame : (ro.map (bucket_total acc')).sum =
            (ro.map (bucket_total acc)).sum := by
          refine map_sum_congr ?_
          intro r' hr'
          have hrr : r' ≠ r := fun hcon => hrin (hcon ▸ hr')
          unfold bucket_total
          rw [hacc']
          unfold add_bucket
          split
          · rw [assocFind_assocSet_ne _ hrr]
          · rcases hfind : assocFind acc r' with _ | v
            · rw [assocFind_append_none _ hfind]
              simp only [assocFind]
              rw [if_neg (fun hh => hrr hh.symm)]
            · rw [assocFind_append_some _ hfind]
        rw [hsum, hsame, hcount, hrcount]
        simp [hrin]
    case h_2 hnostr =>
      have hacc' : acc' = acc := (pure_ok hstep).symm
      rw [hacc'] at hrest
      obtain ⟨hp, hsum⟩ := ih acc hpres hrest
      refine ⟨hp, ?_⟩
      rw [hsum, hcount]
      have : region_counted ro e = false := by
        unfold region_counted
        rw [hreg]
        cases region <;> first | rfl | exact absurd rfl (hnostr _)
      simp [this]

/-- C8: with distinct declared region keys, the breakdown's per-region totals
sum to exactly the number of analyzed entries whose stored region is a string
equal to a declared key; entries with a missing, non-string or undeclared
region are counted in no bucket but still appear in `allMatches`. -/
theorem C8_region_totals (matchList : List (List (String × PyVal)))
    (idx : CompetitionIndex) (analyzed : List Entry) (out : AnalysisResult)
    (hnd : idx.region_order.Nodup)
    (hana : matchList.mapM analyze_one = .ok analyzed)
    (hout : analyze_matches matchList idx = .ok out) :
    (out.breakdownByRegion.map RegionStat.total).sum =
      analyzed.countP (region_counted idx.region_order) ∧
    ∀ e ∈ analyzed, e ∈ out.allMatches := by
  unfold analyze_matches at hout
  obtain ⟨analyzed', h1, hout⟩ := bind_ok hout
  rw [hana] at h1
  injection h1 with h1
  subst h1
  dsimp only at hout
  obtain ⟨buckets, h2, hout⟩ := bind_ok hout
  have := pure_ok hout
  subst this
  constructor
  · have hpres0 : ∀ r ∈ idx.region_order,
        (assocFind (init_buckets idx.region_order) r).isSome := by
      intro r hr
      exact init_buckets_presence_aux idx.region_order [] (Or.inl hr)
    obtain ⟨hp, hsum⟩ :=
      build_buckets_invariant idx.region_order hnd analyzed
        (init_buckets idx.region_order) buckets hpres0 h2
    have hinit : (idx.region_order.map
        (bucket_total (init_buckets idx.region_order))).sum = 0 := by
      have : ∀ r ∈ idx.region_order,
          bucket_total (init_buckets idx.region_order) r = 0 := by
        intro r _
        exact init_bucket_total idx.region_order r
      rw [map_sum_congr this]
      simp
    have hbrk : (List.map RegionStat.total (List.map (fun region =>
        { region := region,
          label := (assocFind idx.region_label region).getD region,
          total := ((assocFind buckets region).getD []).length,
          highConfidence := (((assocFind buckets region).getD []).filter
            fun e => e.confidence = "high").length,
          mediumConfidence := (((assocFind buckets region).getD []).filter
            fun e => e.confidence = "medium").length : RegionStat })
          idx.region_order)).sum =
        (idx.region_order.map (bucket_total buckets)).sum := by
      rw [List.map_map]
      rfl
    rw [hbrk, hsum, hinit]
    omega
  · intro e he
    exact ((sort_desc_perm analyzed).mem_iff).mpr he

/-! ## Claim C9: determinism -/

/-- C9: the analyzer is a pure function of the match list and the competition
index: two runs on equal inputs yield equal outputs (the embedding carries no
state beyond its two arguments, mirroring `analyze_matches`, which reads and
writes no module-level mutable state). -/
theorem C9_determinism (ms1 ms2 : List (List (String × PyVal)))
    (idx1 idx2 : CompetitionIndex) (h1 : ms1 = ms2) (h2 : idx1 = idx2) :
    analyze_matches ms1 idx1 = analyze_matches ms2 idx2 := by
  rw [h1, h2]

theorem C9_determinism_witness :
    analyze_matches [] { region_order := [], region_label := [] } =
      analyze_matches [] { region_order := [], region_label := [] } :=
  C9_determinism [] [] { region_order := [], region_label := [] }
    { region_order := [], region_label := [] } rfl rfl

/-! ## Concrete inputs: counterexamples and witnesses -/

/-- A match whose only market carries a "decimal" price of `0.5`: positive,
so `_normalize_odd_value` accepts it, and `1/0.5 * 100 = 200`. -/
def c4x_match : List (String × PyVal) :=
  [("odds", .list [ .dict
    [("name", .str "Match Winner"),
     ("values", .list [ .dict [("value", .str "Home"), ("odd", .float (1/2))] ])] ])]

unseal Rat.mul Rat.add Rat.sub Rat.inv Rat.ofScientific in
/-- C4 counterexample: with a market price of `0.5` (positive, hence accepted
by the parser) the analyzer emits `homeWinProbability = 200`, outside
`[0,100]` — market-derived 1X2 fields are stored without clamping. -/
theorem C4_counterexample :
    (analyze_one c4x_match).map (fun e => e.predictions.homeWinProbability) =
      .ok 200 := by
  decide

/-- One market list with the `Home` label twice: prices `2.0` then `4.0`. -/
def c6x_values : List PyVal :=
  [ .dict [("value", .str "Home"), ("odd", .str "2.0")],
    .dict [("value", .str "Home"), ("odd", .str "4.0")] ]

unseal Rat.mul Rat.add Rat.sub Rat.inv Rat.ofScientific in
/-- C6 counterexample: with `Home` listed at price `2.0` (implied 50) and
again at price `4.0` (implied 25), the output takes 25 — the LAST occurrence
overwrites the first, contradicting the claimed first-occurrence rule. -/
theorem C6_counterexample :
    calculate_probability (.str "2.0") = 50 ∧
    calculate_probability (.str "4.0") = 25 ∧
    (apply_match_winner c6x_values Predictions.start).map
      (fun p => p.homeWinProbability) = .ok 25 := by
  refine ⟨by decide, by decide, by decide⟩

def c3x_home : List (String × PyVal) :=
  [("wins", .int 3), ("draws", .int 1), ("losses", .int 1)]

def c3x_away : List (String × PyVal) :=
  [("wins", .int 2), ("draws", .int 2), ("losses", .int 1)]

/-- A match with no odds, no third-party and no vendor data, but both sides'
form summaries present. -/
def c3x_match : List (String × PyVal) :=
  [("form", .dict [("home", .dict c3x_home), ("away", .dict c3x_away)])]

/-- C3 counterexample: a match with no odds at all (and no third-party or
vendor data) but both `FormSummary` dicts present takes the early `continue`
for falsy odds, so the heuristic never runs and the 1X2 triple sums to 0,
not 100. -/
theorem C3_counterexample :
    dfind c3x_match "odds" = Option.none ∧
    dfind c3x_match "forebet" = Option.none ∧
    dfind c3x_match "apiFootballPrediction" = Option.none ∧
    subForm (dgetD c3x_match "form" .none) "home" = .dict c3x_home ∧
    c3x_home.isEmpty = false ∧
    subForm (dgetD c3x_match "form" .none) "away" = .dict c3x_away ∧
    c3x_away.isEmpty = false ∧
    (analyze_one c3x_match).map (fun e =>
      e.predictions.homeWinProbability + e.predictions.drawProbability +
        e.predictions.awayWinProbability) = .ok 0 :=
  ⟨rfl, rfl, rfl, rfl, rfl, rfl, rfl, by decide⟩

/-- A match with a fully populated `match_winner` market (prices `1.50`,
`4.00`, `6.50`), plus forebet and form data that must not override it. -/
def c1w_match : List (String × PyVal) :=
  [("odds", .list [ .dict
    [("name", .str "Match Winner"),
     ("values", .list
       [ .dict [("value", .str "Home"), ("odd", .str "1.50")],
         .dict [("value", .str "Draw"), ("odd", .str "4.00")],
         .dict [("value", .str "Away"), ("odd", .str "6.50")] ])] ]),
   ("forebet", .dict [("homeWinProbability", .int 99)]),
   ("form", .dict [("home", .dict c3x_home), ("away", .dict c3x_away)])]

def c1w_mw : List PyVal :=
  [ .dict [("value", .str "Home"), ("odd", .str "1.50")],
    .dict [("value", .str "Draw"), ("odd", .str "4.00")],
    .dict [("value", .str "Away"), ("odd", .str "6.50")] ]

unseal Rat.mul Rat.add Rat.sub Rat.inv Rat.ofScientific in
def c1w_q : Predictions :=
  (apply_match_winner c1w_mw Predictions.start).toOption.get (by rfl)

unseal Rat.mul Rat.add Rat.sub Rat.inv Rat.ofScientific in
def c1w_entry : Entry := (analyze_one c1w_match).toOption.get (by rfl)

unseal Rat.mul Rat.add Rat.sub Rat.inv Rat.ofScientific in
theorem C1_market_precedence_witness :
    c1w_entry.predictions.homeWinProbability = c1w_q.homeWinProbability ∧
    c1w_entry.predictions.drawProbability = c1w_q.drawProbability ∧
    c1w_entry.predictions.awayWinProbability = c1w_q.awayWinProbability :=
  C1_market_precedence c1w_match c1w_entry c1w_mw c1w_q (by rfl)
    (ok_of_isSome (by rfl)) (by decide) (by decide) (by decide)
    (ok_of_isSome (by rfl))

def c2w_match : List (String × PyVal) := [("id", .int 1)]

def c2w_entry : Entry := (analyze_one c2w_match).toOption.get (by rfl)

theorem C2_no_odds_default_witness :
    c2w_entry.predictions.homeWinProbability = 0 ∧
    c2w_entry.predictions.drawProbability = 0 ∧
    c2w_entry.predictions.awayWinProbability = 0 ∧
    c2w_entry.predictions.over25Probability = 0 ∧
    c2w_entry.predictions.under25Probability = 0 ∧
    c2w_entry.predictions.bttsYesProbability = 0 ∧
    c2w_entry.predictions.bttsNoProbability = 0 ∧
    c2w_entry.recommendedBets = [] ∧
    c2w_entry.confidence = "low" ∧ c2w_entry.analysisNotes = [] :=
  C2_no_odds_default c2w_match c2w_entry (Or.inl (by rfl))
    (ok_of_isSome (by rfl))

/-- A match with a truthy odds list whose only market is unrecognized, so the
signal stage leaves the 1X2 triple at zero, plus both form summaries. -/
def c3w_match : List (String × PyVal) :=
  [("odds", .list [ .dict [("name", .str "Corners"), ("values", .list [])] ]),
   ("form", .dict [("home", .dict c3x_home), ("away", .dict c3x_away)])]

def c3w_items : List PyVal :=
  [ .dict [("name", .str "Corners"), ("values", .list [])] ]

unseal Rat.mul Rat.add Rat.sub Rat.inv Rat.ofScientific in
def c3w_psig : Predictions × Bool × Bool :=
  (signal_stage c3w_match c3w_items).toOption.get (by rfl)

unseal Rat.mul Rat.add Rat.sub Rat.inv Rat.ofScientific in
def c3w_entry : Entry := (analyze_one c3w_match).toOption.get (by rfl)

unseal Rat.mul Rat.add Rat.sub Rat.inv Rat.ofScientific in
theorem C3_amended_witness :
    c3w_entry.predictions.homeWinProbability +
      c3w_entry.predictions.drawProbability +
      c3w_entry.predictions.awayWinProbability = 100 :=
  C3_amended_heuristic_triple_sum c3w_match c3w_entry c3w_items
    c3w_psig.1 c3w_psig.2.1 c3w_psig.2.2 c3x_home c3x_away (by rfl) (by rfl)
    (ok_of_isSome (by rfl)) (by decide) (by rfl) (by rfl) (by rfl) (by rfl)
    (ok_of_isSome (by rfl))

def c4w_items : List PyVal :=
  [ .dict
    [("name", .str "Match Winner"),
     ("values", .list
       [ .dict [("value", .str "Home"), ("odd", .str "1.50")],
         .dict [("value", .str "Draw"), ("odd", .str "4.00")],
         .dict [("value", .str "Away"), ("odd", .str "6.50")] ])] ]

unseal Rat.mul Rat.add Rat.sub Rat.inv Rat.ofScientific in
theorem C4_amended_witness : PredIn c1w_entry.predictions :=
  C4_amended_fields_in_range c1w_match c1w_entry c4w_items (by rfl) (by decide)
    (ok_of_isSome (by rfl))

unseal Rat.mul Rat.add Rat.sub Rat.inv Rat.ofScientific in
def c6w_q : Predictions :=
  (apply_match_winner c6x_values Predictions.start).toOption.get (by rfl)

unseal Rat.mul Rat.add Rat.sub Rat.inv Rat.ofScientific in
theorem C6_amended_witness :
    c6w_q.homeWinProbability =
      (match c6x_values.reverse.find? home_labeled with
        | some w => calculate_probability (dictGetD w "odd" .none)
        | Option.none => Predictions.start.homeWinProbability) :=
  (C6_amended_last_occurrence_wins (ok_of_isSome (by rfl))).1

def c7w_list : List (List (String × PyVal)) := [c1w_match, c2w_match]

def c7w_idx : CompetitionIndex :=
  { region_order := ["europe"], region_label := [("europe", "Europa")] }

unseal Rat.mul Rat.add Rat.sub Rat.inv Rat.ofScientific in
def c7w_analyzed : List Entry :=
  (c7w_list.mapM analyze_one).toOption.get (by rfl)

unseal Rat.mul Rat.add Rat.sub Rat.inv Rat.ofScientific in
def c7w_out : AnalysisResult :=
  (analyze_matches c7w_list c7w_idx).toOption.get (by rfl)

unseal Rat.mul Rat.add Rat.sub Rat.inv Rat.ofScientific in
theorem C7_ranking_witness :
    c7w_out.bestMatches = c7w_out.allMatches.take 10 :=
  (C7_ranking c7w_list c7w_idx c7w_analyzed c7w_out (ok_of_isSome (by rfl))
    (ok_of_isSome (by rfl))).2.2.2.1

def c8w_match : List (String × PyVal) :=
  [("competition", .dict [("region", .str "europe")])]

def c8w_list : List (List (String × PyVal)) := [c8w_match, c2w_match]

def c8w_idx : CompetitionIndex :=
  { region_order := ["europe", "americas"],
    region_label := [("europe", "Europa"), ("americas", "Americas")] }

unseal Rat.mul Rat.add Rat.sub Rat.inv Rat.ofScientific in
def c8w_analyzed : List Entry :=
  (c8w_list.mapM analyze_one).toOption.get (by rfl)

unseal Rat.mul Rat.add Rat.sub Rat.inv Rat.ofScientific in
def c8w_out : AnalysisResult :=
  (analyze_matches c8w_list c8w_idx).toOption.get (by rfl)

unseal Rat.mul Rat.add Rat.sub Rat.inv Rat.ofScientific in
theorem C8_region_totals_witness :
    (c8w_out.breakdownByRegion.map RegionStat.total).sum =
      c8w_analyzed.countP (region_counted c8w_idx.region_order) :=
  (C8_region_totals c8w_list c8w_idx c8w_analyzed c8w_out (by decide)
    (ok_of_isSome (by rfl)) (ok_of_isSome (by rfl))).1

end PyBot
